import Mathlib

/-!
Verification of the redisctl cluster control plane against its source.

Each definition below is a shallow embedding of a function from the
redisctl repository (file and function named in its doc comment).
Machine integers are modelled as `Nat`/`Int`; fallible code returns
`Option`; the connection map is an association list; command traces are
explicit event lists.  Theorems at the end of the file settle the
behavioural claims about the tool.
-/

namespace Redisctl

/-! ## Go string helpers

`strings.Fields`, `strings.Split` (single-character separators only, the
only form the repository uses), `strings.Contains`, `strings.TrimSpace`
and `strconv.Atoi`, modelled structurally on `List Char` so that every
definition evaluates by kernel reduction. -/

/-- Split a character list at every character satisfying `p`, keeping
empty segments, accumulator-style (mirrors `strings.Split`). -/
def charSplitAux (p : Char → Bool) (acc : List Char) : List Char → List (List Char)
  | [] => [acc.reverse]
  | c :: cs => if p c then acc.reverse :: charSplitAux p [] cs else charSplitAux p (c :: acc) cs

/-- `strings.Split(s, sep)` for a one-character separator. -/
def splitOnChar (sep : Char) (s : String) : List String :=
  (charSplitAux (fun c => c = sep) [] s.data).map (fun cs => ⟨cs⟩)

/-- `strings.Fields`: split on whitespace runs, dropping empty fields. -/
def goFields (s : String) : List String :=
  ((charSplitAux (fun c => c.isWhitespace) [] s.data).filter (fun cs => cs ≠ [])).map
    (fun cs => ⟨cs⟩)

/-- Does `pre` occur at the head of `l`? -/
def leadsWith : List Char → List Char → Bool
  | [], _ => true
  | _ :: _, [] => false
  | a :: as, b :: bs => a = b && leadsWith as bs

/-- Does `sub` occur somewhere inside `l`? -/
def hasSub (sub : List Char) : List Char → Bool
  | [] => sub.isEmpty
  | c :: rest => leadsWith sub (c :: rest) || hasSub sub rest

/-- `strings.Contains(s, sub)`. -/
def strContains (s sub : String) : Bool := hasSub sub.data s.data

/-- `strings.TrimSpace`. -/
def goTrim (s : String) : String :=
  ⟨((s.data.dropWhile Char.isWhitespace).reverse.dropWhile Char.isWhitespace).reverse⟩

/-- Digit-string accumulator for `strconv.Atoi`. -/
def parseDigits : List Char → Nat → Option Nat
  | [], acc => some acc
  | c :: cs, acc => if c.isDigit then parseDigits cs (acc * 10 + (c.toNat - 48)) else none

/-- `strconv.Atoi`: optional sign, one or more digits (overflow ignored). -/
def atoi? (s : String) : Option Int :=
  match s.data with
  | [] => none
  | '+' :: cs => if cs = [] then none else (parseDigits cs 0).map (fun n => (n : Int))
  | '-' :: cs => if cs = [] then none else (parseDigits cs 0).map (fun n => -(n : Int))
  | c :: cs => if c.isDigit then (parseDigits (c :: cs) 0).map (fun n => (n : Int)) else none

/-! ## internal/config: authentication (`config.ValidateAuth`, `config.GetAuth`)

`ValidateAuth` runs at the entry of every cluster-touching subcommand and
rejects an empty password; `GetAuth` then hands the same `(user, password)`
pair to every migration site. -/

/-- `config.ValidateAuth`: an error exactly when the password is empty. -/
def validateAuth (password : String) : Option String :=
  if password = "" then some "password required" else none

/-! ## MIGRATE command construction (claim C4)

`cmd/del_node.go: buildMigrateCommand`,
`cmd (reshard): buildMigrateCommandForReshard`, and the inline command
built per key inside `cmd (rebalance): migrateKeysBatch`.  A Go
`[]interface{}` argument vector is modelled as a list of string/integer
arguments. -/

/-- One `MIGRATE` argument: Go puts strings and ints in the same slice. -/
inductive MigArg where
  | str (s : String)
  | num (n : Int)
  deriving DecidableEq, Repr

/-- `MIGRATE targetHost targetPort key 0 60000` — the unauthenticated
command both builders start from. -/
def baseMigrateCmd (targetHost targetPort key : String) : List MigArg :=
  [.str "MIGRATE", .str targetHost, .str targetPort, .str key, .num 0, .num 60000]

/-- `cmd/del_node.go: buildMigrateCommand`. -/
def buildMigrateCommand (targetHost targetPort key user password : String) : List MigArg :=
  if user ≠ "" then
    baseMigrateCmd targetHost targetPort key ++ [.str "AUTH2", .str user, .str password]
  else if password ≠ "" then
    baseMigrateCmd targetHost targetPort key ++ [.str "AUTH", .str password]
  else
    baseMigrateCmd targetHost targetPort key

/-- `buildMigrateCommandForReshard` (reshard command file): textually the
same three-way branch as `buildMigrateCommand`. -/
def buildMigrateCommandForReshard (targetHost targetPort key user password : String) :
    List MigArg :=
  if user ≠ "" then
    baseMigrateCmd targetHost targetPort key ++ [.str "AUTH2", .str user, .str password]
  else if password ≠ "" then
    baseMigrateCmd targetHost targetPort key ++ [.str "AUTH", .str password]
  else
    baseMigrateCmd targetHost targetPort key

/-- The per-key command assembled inline in `migrateKeysBatch` (rebalance
path): `AUTH2 user password` when a username is set, otherwise always
`AUTH password`. -/
def migrateKeysBatchCmd (targetHost targetPort key user password : String) : List MigArg :=
  if user ≠ "" then
    [.str "MIGRATE", .str targetHost, .str targetPort, .str key, .num 0, .num 60000,
      .str "AUTH2", .str user, .str password]
  else
    [.str "MIGRATE", .str targetHost, .str targetPort, .str key, .num 0, .num 60000,
      .str "AUTH", .str password]

/-! ## del-node pre-removal decision (claim C2)

`cmd/del_node.go: runDelNode`, lines deciding between rejection, slot
draining, and direct removal once the target node's record is known. -/

/-- Outcome of the primary-count validation in `runDelNode`. -/
inductive DelNodeStep where
  | rejectNoOtherMasters
  | rejectMinMasters
  | drainThenRemove
  | removeDirectly
  deriving DecidableEq, Repr

/-- `runDelNode`'s branch on the target node: a slot-owning primary is
rejected when no other primary exists or when fewer than two other
primaries exist, and otherwise drained; a slotless primary is rejected
only on the fewer-than-two check; a replica is removed directly. -/
def delNodeDecision (isMaster : Bool) (slotCount otherMasters : Nat) : DelNodeStep :=
  if isMaster && slotCount > 0 then
    if otherMasters = 0 then .rejectNoOtherMasters
    else if otherMasters < 2 then .rejectMinMasters
    else .drainThenRemove
  else if isMaster then
    if otherMasters < 2 then .rejectMinMasters else .removeDirectly
  else .removeDirectly

/-- Does the decision abort the command before any slot motion? -/
def delNodeRejects : DelNodeStep → Bool
  | .rejectNoOtherMasters => true
  | .rejectMinMasters => true
  | .drainThenRemove => false
  | .removeDirectly => false

/-! ## Connection manager (`internal/redis/client.go`, claims C9 and C10)

The manager's `nodes` map is modelled as an association list from the raw
address string (the map key used by `Connect`) to a client value.  A
client records only what `Close` can observe of it: the result its
`Close()` call returns. -/

/-- A pooled client: `id` distinguishes distinct connections, `closeErr`
is the result its `Close()` would report. -/
structure RClient where
  id : Nat
  closeErr : Option String
  deriving DecidableEq, Repr

/-- The `address → client` map of `ClusterManager`. -/
abbrev NodeMap := List (String × RClient)

/-- Map lookup (`cm.nodes[address]`). -/
def lookupNode : NodeMap → String → Option RClient
  | [], _ => none
  | (a, c) :: rest, address => if a = address then some c else lookupNode rest address

/-- `internal/redis/client.go: parseAddress`: `host:port` with the
`localhost`/empty host rewritten to `127.0.0.1` and the port parsed and
range-checked (1–65535). -/
def parseAddress (address : String) : Option (String × Int) :=
  match splitOnChar ':' address with
  | [h, p] =>
    let host := if h = "" || h = "localhost" then "127.0.0.1" else h
    match atoi? p with
    | none => none
    | some port => if port < 1 || port > 65535 then none else some (host, port)
  | _ => none

/-- Observable outcome of one `Connect` call. -/
structure ConnectOutcome where
  result : Option RClient
  state : NodeMap
  openedNew : Bool
  pinged : Bool
  deriving DecidableEq, Repr

/-- `internal/redis/client.go: Connect`: return the cached client when the
address is present; otherwise parse the address, open a client
(`newClient`), probe it with `PING` (`pingOk`), and cache it only when the
probe succeeds. -/
def connect (nodes : NodeMap) (address : String) (newClient : RClient) (pingOk : Bool) :
    ConnectOutcome :=
  match lookupNode nodes address with
  | some c => ⟨some c, nodes, false, false⟩
  | none =>
    match parseAddress address with
    | none => ⟨none, nodes, false, false⟩
    | some _ =>
      if pingOk then ⟨some newClient, nodes ++ [(address, newClient)], true, true⟩
      else ⟨none, nodes, true, true⟩

/-- Observable outcome of `ClusterManager.Close`. -/
structure CloseOutcome where
  err : Option String
  closed : List String
  final : NodeMap
  deriving DecidableEq, Repr

/-- Worker for `closeAll`: walk the remaining entries, returning on the
first close error with the original map untouched. -/
def closeAllAux (whole : NodeMap) (closed : List String) : NodeMap → CloseOutcome
  | [] => ⟨none, closed, []⟩
  | (a, c) :: rest =>
    match c.closeErr with
    | some e => ⟨some e, closed ++ [a], whole⟩
    | none => closeAllAux whole (closed ++ [a]) rest

/-- `internal/redis/client.go: Close`: close each cached client in turn;
a close error is returned immediately (before the map is re-made), so the
map is emptied only when every close succeeds. -/
def closeAll (nodes : NodeMap) : CloseOutcome :=
  closeAllAux nodes [] nodes

/-! ## Slot migration traces (claim C1)

The per-slot command sequence issued by each of the three migration
paths, on the path where every command succeeds.  `batches` lists the
successive non-final answers of `CLUSTER GETKEYSINSLOT`; the query after
the last listed batch answers with no keys (the loops in all three paths
re-query until the source reports an empty slot). -/

/-- One administrative command issued during the migration of a slot. -/
inductive MigEvent where
  | migrating (slot : Nat)     -- `CLUSTER SETSLOT slot MIGRATING target` on the source
  | importing (slot : Nat)     -- `CLUSTER SETSLOT slot IMPORTING source` on the target
  | getKeys (slot : Nat)       -- `CLUSTER GETKEYSINSLOT` on the source
  | migrateKey (key : String)  -- one `MIGRATE` on the source
  | nodeOnSource (slot : Nat)  -- `CLUSTER SETSLOT slot NODE target` on the source
  | nodeOnTarget (slot : Nat)  -- `CLUSTER SETSLOT slot NODE target` on the target
  | propagateAll (slot : Nat)  -- `CLUSTER SETSLOT slot NODE target` fanned out to every node
  deriving DecidableEq, Repr

/-- The fetch-and-migrate loop shared in shape by all three paths:
query the slot's keys, stop when the answer is empty, otherwise issue one
`MIGRATE` per key and re-query. -/
def drainTrace (slot : Nat) : List (List String) → List MigEvent
  | [] => [.getKeys slot]
  | b :: rest =>
    .getKeys slot ::
      (if b = [] then [] else b.map .migrateKey ++ drainTrace slot rest)

/-- `migrateSlot` (reshard command file): MIGRATING on the source, then
IMPORTING on the target, then the drain loop, then `SETSLOT NODE` on
source and target. -/
def reshardSlotTrace (slot : Nat) (batches : List (List String)) : List MigEvent :=
  .migrating slot :: .importing slot ::
    (drainTrace slot batches ++ [.nodeOnSource slot, .nodeOnTarget slot])

/-- Per-slot body of `reshardSlots` (rebalance execution path): the same
order as `migrateSlot`. -/
def rebalanceSlotTrace (slot : Nat) (batches : List (List String)) : List MigEvent :=
  .migrating slot :: .importing slot ::
    (drainTrace slot batches ++ [.nodeOnSource slot, .nodeOnTarget slot])

/-- Per-slot body of `cmd/del_node.go: moveSlots`: IMPORTING on the
target first, then MIGRATING on the source, then the drain loop, the two
`SETSLOT NODE` commands, and the fan-out to every node
(`updateAllNodesSlotOwnershipForDelNode`). -/
def delNodeSlotTrace (slot : Nat) (batches : List (List String)) : List MigEvent :=
  .importing slot :: .migrating slot ::
    (drainTrace slot batches ++ [.nodeOnSource slot, .nodeOnTarget slot, .propagateAll slot])

/-! ## Key-migration retry behaviour (claim C3)

Each path's per-key `MIGRATE` handling, with the command's outcome given
by an oracle (`none` = success, `some msg` = the error message Go would
see).  Results record the final error, how many `MIGRATE` attempts were
issued, and the sleeps (in milliseconds) performed between attempts. -/

/-- The network-error test of `migrateSlotsKeysWithBatching`:
`strings.Contains(err, "timeout") || strings.Contains(err, "connection")`. -/
def isNetworkErr (msg : String) : Bool :=
  strContains msg "timeout" || strContains msg "connection"

/-- Result of migrating one key (or one batch): final error, number of
`MIGRATE` commands issued, sleeps performed. -/
structure KeyMigResult where
  result : Option String
  attempts : Nat
  sleepsMs : List Nat
  deriving DecidableEq, Repr

/-- The retry loop of `cmd/del_node.go: migrateSlotsKeysWithBatching` for
one key: up to `maxRetries` attempts in total (`remaining` counts the
attempts the `retry < maxRetries` bound still allows, `retry` is the
0-based attempt index), breaking on success or on a non-network error,
sleeping `(retry+1) * 100` ms after a network-errored attempt.
`res n` is the outcome of attempt `n`. -/
def delNodeKeyRetryAux (res : Nat → Option String) :
    Nat → Nat → Option String → Nat → List Nat → KeyMigResult
  | 0, _, lastErr, attempts, sleeps => ⟨lastErr, attempts, sleeps⟩
  | remaining + 1, retry, _, attempts, sleeps =>
    match res retry with
    | none => ⟨none, attempts + 1, sleeps⟩
    | some e =>
      if isNetworkErr e then
        delNodeKeyRetryAux res remaining (retry + 1) (some e) (attempts + 1)
          (sleeps ++ [(retry + 1) * 100])
      else ⟨some e, attempts + 1, sleeps⟩

/-- One key's migration in the del-node drain (`maxRetries := 3`). -/
def delNodeKeyMigrate (res : Nat → Option String) : KeyMigResult :=
  delNodeKeyRetryAux res 3 0 none 0 []

/-- The per-batch key loop of `migrateSlot` (reshard path): each key gets
exactly one `MIGRATE`; any error aborts the batch immediately, with no
sleep and no retry.  `res k` is the outcome of migrating key `k`. -/
def reshardMigrateKeys (res : String → Option String) : List String → KeyMigResult
  | [] => ⟨none, 0, []⟩
  | k :: rest =>
    match res k with
    | some e => ⟨some e, 1, []⟩
    | none =>
      let r := reshardMigrateKeys res rest
      ⟨r.result, r.attempts + 1, r.sleepsMs⟩

/-- `migrateKeysBatch` (rebalance path): every key of the batch is
enqueued on one pipeline (one `MIGRATE` each), the pipeline is executed
once, and the first per-command error aborts — no retry, no sleep. -/
def rebalanceMigrateKeysBatch (res : String → Option String) (keys : List String) :
    KeyMigResult :=
  ⟨(keys.map res).foldr (fun o acc => match o with | some e => some e | none => acc) none,
    keys.length, []⟩

/-! ## Bootstrap slot assignment (claim C6)

`runCreateCluster`, step 4 (create command file): master `i` of `m`
receives the contiguous range starting at the running `currentSlot`, of
`16384/m` slots plus one more while `i < 16384 % m`.  Go's `int` loop
variables are modelled as `Int`. -/

/-- `kᵢ`: the slot count handed to master `i` (`slotsPerMaster` plus one
while `i < remainder`). -/
def createK (m i : Nat) : Nat := 16384 / m + (if i < 16384 % m then 1 else 0)

/-- The assignment loop: `left` masters remain, the next one is index `i`
and its range starts at `current`; each iteration records
`(currentSlot, endSlot)` with `endSlot = currentSlot + slots - 1`. -/
def assignRangesAux (m : Nat) : Nat → Nat → Int → List (Int × Int)
  | 0, _, _ => []
  | left + 1, i, current =>
    (current, current + (createK m i : Nat) - 1) ::
      assignRangesAux m left (i + 1) (current + (createK m i : Nat))

/-- All `m` ranges, in master order, starting from slot 0. -/
def assignRanges (m : Nat) : List (Int × Int) := assignRangesAux m m 0 0

/-- The slot list `[start..end]` enumerated by
`for slot := start; slot <= end; slot++` (empty when `end < start`). -/
def rangeSlots (p : Int × Int) : List Int :=
  (List.range (p.2 + 1 - p.1).toNat).map (fun j : Nat => p.1 + (j : Int))

/-! ## Cluster-view convergence signature (claim C7)

`waitForClusterJoin` / `createClusterSignature` (add-node command file),
over the node records produced by `internal/redis/client.go:
parseClusterNodes` (only the `ID` and `Flags` fields take part). -/

/-- The part of a parsed cluster-view node record the signature reads. -/
structure CNode where
  ID : String
  Flags : List String
  deriving DecidableEq, Repr

/-- `createClusterSignature`: one `id:flag1,flag2,...` part per node, in
the order the view reported them, joined with `|` — no sorting, no flag
stripping. -/
def createClusterSignature (nodes : List CNode) : String :=
  String.intercalate "|"
    (nodes.map (fun n => n.ID ++ ":" ++ String.intercalate "," n.Flags))

/-- Byte-wise lexicographic comparison on strings (a canonical order for
the spec's "sorted list"). -/
def lexLeAux : List Char → List Char → Bool
  | [], _ => true
  | _ :: _, [] => false
  | a :: as, b :: bs => if a = b then lexLeAux as bs else decide (a.toNat < b.toNat)

/-- `lexLe a b`: `a` sorts no later than `b`. -/
def lexLe (a b : String) : Bool := lexLeAux a.data b.data

/-- Insert into a `lexLe`-sorted list. -/
def insertLex (s : String) : List String → List String
  | [] => [s]
  | x :: xs => if lexLe s x then s :: x :: xs else x :: insertLex s xs

/-- Insertion sort by `lexLe`. -/
def sortLex : List String → List String
  | [] => []
  | s :: ss => insertLex s (sortLex ss)

/-- Modelled from the spec: the canonical signature the convergence wait
is described as using — the sorted list of `node_id:flags` entries with
the `myself` and `handshake` flags stripped. -/
def specCanonicalSignature (nodes : List CNode) : String :=
  String.intercalate "|"
    (sortLex (nodes.map (fun n =>
      n.ID ++ ":" ++
        String.intercalate "," (n.Flags.filter (fun f => ¬(f = "myself" || f = "handshake"))))))

/-! ## Cluster-view line parsing and role assignment (claim C8)

`cmd/check.go: parseClusterNode` and the per-line classification inside
`getCurrentClusterTopology` (rebalance command file). -/

/-- `NodeFlags` (shared flag-parsing utility in the rebalance file). -/
structure NodeFlags where
  IsMaster : Bool := false
  IsReplica : Bool := false
  IsFail : Bool := false
  IsHandshake : Bool := false
  IsNoAddr : Bool := false
  IsNoFlags : Bool := false
  deriving DecidableEq, Repr

/-- `parseNodeFlagsSlice`: trim each flag and set the matching field. -/
def parseNodeFlagsSlice (flags : List String) : NodeFlags :=
  if flags = [] then { IsNoFlags := true }
  else
    flags.foldl
      (fun nf f =>
        match goTrim f with
        | "master" => { nf with IsMaster := true }
        | "slave" => { nf with IsReplica := true }
        | "fail" => { nf with IsFail := true }
        | "handshake" => { nf with IsHandshake := true }
        | "noaddr" => { nf with IsNoAddr := true }
        | _ => nf)
      {}

/-- `cmd/check.go: ClusterNode` — the fields `parseClusterNode` fills. -/
structure CheckNode where
  ID : String
  Addr : String
  MasterID : String
  Flags : List String
  IsMaster : Bool
  IsReplica : Bool
  IsFail : Bool
  IsHandshake : Bool
  Slots : List Int
  deriving DecidableEq, Repr

/-- One slot token as `parseClusterNode` reads it: transient `[...]`
markers are skipped, ranges and single slots are bounds-checked against
`[0, 16384)`. -/
def checkSlotToken (tok : String) : List Int :=
  if leadsWith ['['] tok.data then []
  else if strContains tok "-" then
    match splitOnChar '-' tok with
    | [a, b] =>
      match atoi? a, atoi? b with
      | some s, some e => if 0 ≤ s && e < 16384 && s ≤ e then rangeSlots (s, e) else []
      | _, _ => []
    | _ => []
  else
    match atoi? tok with
    | some n => if 0 ≤ n && n < 16384 then [n] else []
    | none => []

/-- `cmd/check.go: parseClusterNode`, first part: fields, flags, master
id (set only when field 3 is not `-`), and the slot tokens from
index 8. -/
def parseClusterNodeRaw (line : String) : Option CheckNode :=
  let parts := goFields line
  if parts.length < 8 then none
  else
    let flags := splitOnChar ',' (parts.getD 2 "")
    let nf := parseNodeFlagsSlice flags
    some
      { ID := parts.getD 0 "", Addr := parts.getD 1 "",
        MasterID := if parts.getD 3 "" ≠ "-" then parts.getD 3 "" else "",
        Flags := flags, IsMaster := nf.IsMaster, IsReplica := nf.IsReplica,
        IsFail := nf.IsFail, IsHandshake := nf.IsHandshake,
        Slots := ((parts.drop 8).map checkSlotToken).flatten }

/-- `cmd/check.go: parseClusterNode`, role re-validation block: a set
non-dash master id forces replica; otherwise owned slots force master;
otherwise the flag-based role stands. -/
def roleOverride (node : CheckNode) : CheckNode :=
  if node.MasterID ≠ "" ∧ node.MasterID ≠ "-" then
    { node with IsReplica := true, IsMaster := false }
  else if node.Slots ≠ [] then
    { node with IsMaster := true, IsReplica := false }
  else node

/-- `cmd/check.go: parseClusterNode`: the raw parse followed by the role
re-validation. -/
def parseClusterNode (line : String) : Option CheckNode :=
  (parseClusterNodeRaw line).map roleOverride

/-- `MasterNode` (rebalance command file). -/
structure MasterNode where
  ID : String
  Addr : String
  Slots : List Int
  deriving DecidableEq, Repr

/-- `ReplicaNode` (rebalance command file). -/
structure ReplicaNode where
  ID : String
  Addr : String
  MasterID : String
  deriving DecidableEq, Repr

/-- One slot token as `getCurrentClusterTopology` reads it: no bounds
check and no explicit skip of `[...]` markers (those fail `Atoi` or the
two-part split and are dropped). -/
def topoSlotToken (tok : String) : List Int :=
  if strContains tok "-" then
    match splitOnChar '-' tok with
    | [a, b] =>
      match atoi? a, atoi? b with
      | some s, some e => rangeSlots (s, e)
      | _, _ => []
    | _ => []
  else
    match atoi? tok with
    | some n => [n]
    | none => []

/-- Per-line classification inside `getCurrentClusterTopology`: the
`master` flag puts the line on the master list (with its parsed slots),
else the `slave` flag puts it on the replica list — `primary_id` is never
consulted. -/
def topologyEntry (line : String) : Option (MasterNode ⊕ ReplicaNode) :=
  let parts := goFields line
  if parts.length < 8 then none
  else
    let nf := parseNodeFlagsSlice (splitOnChar ',' (parts.getD 2 ""))
    if nf.IsMaster then
      some (.inl ⟨parts.getD 0 "", parts.getD 1 "",
        ((parts.drop 8).map topoSlotToken).flatten⟩)
    else if nf.IsReplica then
      some (.inr ⟨parts.getD 0 "", parts.getD 1 "", parts.getD 3 ""⟩)
    else none

/-! ## Rebalance planner (claim C5)

`generateRebalancePlan` (rebalance command file): deep-copy and sort the
masters by descending slot count, partition into donors and receivers
against `idealSlots = 16384 / n`, then greedily pair the current donor
and receiver, moving `min(excess, deficit)` slots taken from the tail of
the donor's slot list, until either index runs off its list. -/

/-- `RebalancePlan` (rebalance command file). -/
structure RebalancePlan where
  From : String
  To : String
  Slots : List Int
  SlotCount : Nat
  deriving DecidableEq, Repr

/-- Insert one master into a list sorted by descending slot count. -/
def insertByCount (m : MasterNode) : List MasterNode → List MasterNode
  | [] => [m]
  | x :: xs =>
    if x.Slots.length < m.Slots.length then m :: x :: xs else x :: insertByCount m xs

/-- The `sort.Slice(masters, len decreasing)` step (the Go sort leaves
tie order unspecified; insertion sort fixes one admissible order). -/
def sortByCountDesc : List MasterNode → List MasterNode
  | [] => []
  | m :: ms => insertByCount m (sortByCountDesc ms)

/-- The slots to move in one pairing step:
`min(excess, deficit)` as the Go code computes it. -/
def moveAmount (ideal : Nat) (donor receiver : MasterNode) : Int :=
  if (ideal : Int) - (receiver.Slots.length : Int)
      < (donor.Slots.length : Int) - (ideal : Int) then
    (ideal : Int) - (receiver.Slots.length : Int)
  else
    (donor.Slots.length : Int) - (ideal : Int)

/-- The slots transferred in one step: taken from the tail of the
donor's slot list. -/
def transferOf (ideal : Nat) (donor receiver : MasterNode) : List Int :=
  donor.Slots.reverse.take (moveAmount ideal donor receiver).toNat

/-- The donor after one step: its slot list truncated by the transfer. -/
def donorAfter (ideal : Nat) (donor receiver : MasterNode) : MasterNode :=
  ⟨donor.ID, donor.Addr,
    donor.Slots.take (donor.Slots.length - (transferOf ideal donor receiver).length)⟩

/-- The receiver after one step: the transfer appended to its slots. -/
def receiverAfter (ideal : Nat) (donor receiver : MasterNode) : MasterNode :=
  ⟨receiver.ID, receiver.Addr, receiver.Slots ++ transferOf ideal donor receiver⟩

/-- The donor/receiver pairing loop.  `donors` and `receivers` hold
indices into `ms` (in sorted order); `fuel` bounds the iteration count —
at least one index advances per iteration, so the fuel supplied by
`generateRebalancePlanAux` (one per donor and receiver plus one) is never
exhausted and the cutoff branch is dead.  Returns the accumulated plan
together with the masters as updated by it. -/
def planLoopAux (ideal : Nat) (donors receivers : List Nat) :
    Nat → List MasterNode → Nat → Nat → List RebalancePlan →
      List RebalancePlan × List MasterNode
  | 0, ms, _, _, plan => (plan, ms)
  | fuel + 1, ms, dIdx, rIdx, plan =>
    if dIdx < donors.length ∧ rIdx < receivers.length then
      if moveAmount ideal (ms.getD (donors.getD dIdx 0) ⟨"", "", []⟩)
          (ms.getD (receivers.getD rIdx 0) ⟨"", "", []⟩) ≤ 0 then (plan, ms)
      else
        planLoopAux ideal donors receivers fuel
          ((ms.set (donors.getD dIdx 0)
              (donorAfter ideal (ms.getD (donors.getD dIdx 0) ⟨"", "", []⟩)
                (ms.getD (receivers.getD rIdx 0) ⟨"", "", []⟩))).set (receivers.getD rIdx 0)
            (receiverAfter ideal (ms.getD (donors.getD dIdx 0) ⟨"", "", []⟩)
              (ms.getD (receivers.getD rIdx 0) ⟨"", "", []⟩)))
          (if (donorAfter ideal (ms.getD (donors.getD dIdx 0) ⟨"", "", []⟩)
                (ms.getD (receivers.getD rIdx 0) ⟨"", "", []⟩)).Slots.length ≤ ideal then
            dIdx + 1
          else dIdx)
          (if ideal ≤ (receiverAfter ideal (ms.getD (donors.getD dIdx 0) ⟨"", "", []⟩)
                (ms.getD (receivers.getD rIdx 0) ⟨"", "", []⟩)).Slots.length then
            rIdx + 1
          else rIdx)
          (plan ++ [⟨(ms.getD (donors.getD dIdx 0) ⟨"", "", []⟩).ID,
            (ms.getD (receivers.getD rIdx 0) ⟨"", "", []⟩).ID,
            transferOf ideal (ms.getD (donors.getD dIdx 0) ⟨"", "", []⟩)
              (ms.getD (receivers.getD rIdx 0) ⟨"", "", []⟩),
            (transferOf ideal (ms.getD (donors.getD dIdx 0) ⟨"", "", []⟩)
              (ms.getD (receivers.getD rIdx 0) ⟨"", "", []⟩)).length⟩])
    else (plan, ms)

/-- `generateRebalancePlan`, with the loop's final master list kept
alongside the plan (the Go function mutates its local copy and returns
only the plan; the final list is exactly the plan applied). -/
def generateRebalancePlanAux (masters : List MasterNode) :
    List RebalancePlan × List MasterNode :=
  if masters.length = 0 then ([], masters)
  else
    let sorted := sortByCountDesc masters
    let ideal := 16384 / masters.length
    let donors := (List.range sorted.length).filter
      (fun i => ideal < (sorted.getD i ⟨"", "", []⟩).Slots.length)
    let receivers := (List.range sorted.length).filter
      (fun i => (sorted.getD i ⟨"", "", []⟩).Slots.length < ideal)
    planLoopAux ideal donors receivers (donors.length + receivers.length + 1) sorted 0 0 []

/-- `generateRebalancePlan` as the Go function returns it. -/
def generateRebalancePlan (masters : List MasterNode) : List RebalancePlan :=
  (generateRebalancePlanAux masters).1

/-- Max absolute deviation of the slot counts from `ideal`
(the quantity `calculateImbalance` scales to a percentage). -/
def maxDev (ms : List MasterNode) (ideal : Nat) : Nat :=
  (ms.map (fun m => Nat.dist m.Slots.length ideal)).foldr max 0

/-- `Σᵢ max(0, cᵢ − ideal)` (truncated subtraction is the `max(0, ·)`). -/
def sumExcess (ms : List MasterNode) (ideal : Nat) : Nat :=
  (ms.map (fun m => m.Slots.length - ideal)).sum

/-- Total number of slots a plan moves. -/
def planTotal (plan : List RebalancePlan) : Nat :=
  (plan.map (fun p => p.SlotCount)).sum

/-- Modelled from the spec: applying one plan item `{from, to, slots}` to
a distribution by node id — the donor loses the item's slots off the tail
of its list, the receiver gains them. -/
def applyPlanItem (ms : List MasterNode) (it : RebalancePlan) : List MasterNode :=
  ms.map (fun mn =>
    if mn.ID = it.From then
      ⟨mn.ID, mn.Addr, mn.Slots.take (mn.Slots.length - it.Slots.length)⟩
    else if mn.ID = it.To then
      ⟨mn.ID, mn.Addr, mn.Slots ++ it.Slots⟩
    else mn)

/-- Modelled from the spec: applying a whole plan, item by item. -/
def applyPlan (ms : List MasterNode) (plan : List RebalancePlan) : List MasterNode :=
  plan.foldl applyPlanItem ms

/-! ## Theorems -/

/-- Lookup in a map extended on the right with a fresh key. -/
theorem lookupNode_append (nodes : NodeMap) (a : String) (c : RClient)
    (h : lookupNode nodes a = none) : lookupNode (nodes ++ [(a, c)]) a = some c := by
  induction nodes with
  | nil => simp [lookupNode]
  | cons p rest ih =>
    unfold lookupNode at h ⊢
    by_cases hp : p.1 = a
    · simp [hp] at h
    · simpa [hp] using ih (by simpa [hp] using h)

/-- A failed lookup means the key is absent from the map. -/
theorem lookupNode_none_not_mem (nodes : NodeMap) (a : String)
    (h : lookupNode nodes a = none) : a ∉ nodes.map Prod.fst := by
  induction nodes with
  | nil => simp
  | cons p rest ih =>
    unfold lookupNode at h
    by_cases hp : p.1 = a
    · simp [hp] at h
    · intro hmem
      rcases List.mem_cons.mp hmem with h1 | h1
      · exact hp h1.symm
      · exact ih (by simpa [hp] using h) h1

/-- C10: `ClusterManager.Connect` is idempotent per address.  Once a
`Connect(address)` call has succeeded, a subsequent `Connect` with the
same address returns the identical cached client with the map unchanged,
opening no new connection and issuing no liveness `PING`; and the
connection map keeps at most one client per address. -/
theorem C10_connect_idempotent (nodes : NodeMap) (a : String) (nc : RClient) (ok : Bool)
    (nc' : RClient) (ok' : Bool) (c : RClient)
    (h : (connect nodes a nc ok).result = some c) :
    connect (connect nodes a nc ok).state a nc' ok'
        = ⟨some c, (connect nodes a nc ok).state, false, false⟩
    ∧ ((nodes.map Prod.fst).Nodup → (((connect nodes a nc ok).state).map Prod.fst).Nodup) := by
  cases hl : lookupNode nodes a with
  | some cached =>
    have hq : connect nodes a nc ok = ⟨some cached, nodes, false, false⟩ := by
      simp [connect, hl]
    rw [hq] at h ⊢
    simp only [Option.some.injEq] at h
    subst h
    exact ⟨by simp [connect, hl], fun hn => hn⟩
  | none =>
    cases hp : parseAddress a with
    | none =>
      have hq : connect nodes a nc ok = ⟨none, nodes, false, false⟩ := by
        simp [connect, hl, hp]
      rw [hq] at h
      simp at h
    | some hostport =>
      cases ok with
      | false =>
        have hq : connect nodes a nc false = ⟨none, nodes, true, true⟩ := by
          simp [connect, hl, hp]
        rw [hq] at h
        simp at h
      | true =>
        have hq : connect nodes a nc true = ⟨some nc, nodes ++ [(a, nc)], true, true⟩ := by
          simp [connect, hl, hp]
        rw [hq] at h ⊢
        simp only [Option.some.injEq] at h
        subst h
        constructor
        · simp [connect, lookupNode_append nodes a nc hl]
        · intro hn
          have hnm : a ∉ nodes.map Prod.fst := lookupNode_none_not_mem nodes a hl
          simp [List.nodup_append, hn, hnm]

/-- C10 witness: a concrete first `Connect` succeeds and the theorem
applies to it. -/
theorem C10_witness :
    connect (connect [] "localhost:7001" ⟨5, none⟩ true).state "localhost:7001" ⟨9, none⟩ false
        = ⟨some ⟨5, none⟩, (connect [] "localhost:7001" ⟨5, none⟩ true).state, false, false⟩ :=
  (C10_connect_idempotent [] "localhost:7001" ⟨5, none⟩ true ⟨9, none⟩ false ⟨5, none⟩
    (by decide)).1

/-- Worker lemma for `closeAll`: behaviour of the walk over the remaining
entries. -/
theorem closeAllAux_ok (whole : NodeMap) :
    ∀ (rest : NodeMap) (closed : List String),
      (∀ p ∈ rest, p.2.closeErr = none) →
      closeAllAux whole closed rest = ⟨none, closed ++ rest.map Prod.fst, []⟩ := by
  intro rest
  induction rest with
  | nil => intro closed _; simp [closeAllAux]
  | cons p tail ih =>
    intro closed hall
    have hp : p.2.closeErr = none := hall p (List.mem_cons_self p tail)
    obtain ⟨a, c⟩ := p
    have hc : c.closeErr = none := hp
    simp only [closeAllAux, hc]
    rw [ih (closed ++ [a]) (fun q hq => hall q (List.mem_cons_of_mem _ hq))]
    simp

/-- Worker lemma for `closeAll`: the first close error stops the walk
with the original map returned untouched. -/
theorem closeAllAux_err (whole : NodeMap) :
    ∀ (rest : NodeMap) (closed : List String),
      (closeAllAux whole closed rest).err ≠ none →
      (closeAllAux whole closed rest).final = whole
        ∧ ∃ p ∈ rest, p.2.closeErr ≠ none := by
  intro rest
  induction rest with
  | nil => intro closed h; simp [closeAllAux] at h
  | cons p tail ih =>
    intro closed h
    obtain ⟨a, c⟩ := p
    cases hc : c.closeErr with
    | some e =>
      refine ⟨by simp [closeAllAux, hc], ⟨(a, c), List.mem_cons_self _ _, by simp [hc]⟩⟩
    | none =>
      simp only [closeAllAux, hc] at h ⊢
      obtain ⟨h1, q, hq, hq2⟩ := ih (closed ++ [a]) h
      exact ⟨h1, q, List.mem_cons_of_mem _ hq, hq2⟩

/-- C9 (amended): `ClusterManager.Close` closes clients in iteration
order; when every close succeeds it closes them all and empties the map,
but the first close error is returned immediately, before the map is
re-made, so in that case every entry remains in the map. -/
theorem C9_close_behavior (m : NodeMap) :
    ((∀ p ∈ m, p.2.closeErr = none) → closeAll m = ⟨none, m.map Prod.fst, []⟩)
    ∧ ((closeAll m).err ≠ none →
        (closeAll m).final = m ∧ ∃ p ∈ m, p.2.closeErr ≠ none) := by
  constructor
  · intro hall
    unfold closeAll
    rw [closeAllAux_ok m m [] hall]
    simp
  · intro h
    exact closeAllAux_err m m [] h

/-- C9 witness: on a map whose clients all close cleanly, `Close` empties
the map. -/
theorem C9_witness :
    closeAll [("a", ⟨0, none⟩), ("b", ⟨1, none⟩)]
      = ⟨none, ["a", "b"], []⟩ :=
  (C9_close_behavior [("a", ⟨0, none⟩), ("b", ⟨1, none⟩)]).1 (by decide)

/-- C9 counterexample: with a first client whose close errors, `Close`
returns the error with the second client never closed and both entries
still in the map — refuting that the map is emptied in every case. -/
theorem C9_counterexample :
    closeAll [("a", ⟨0, some "boom"⟩), ("b", ⟨1, none⟩)]
        = ⟨some "boom", ["a"], [("a", ⟨0, some "boom"⟩), ("b", ⟨1, none⟩)]⟩
    ∧ (closeAll [("a", ⟨0, some "boom"⟩), ("b", ⟨1, none⟩)]).final ≠ [] := by
  constructor <;> decide

/-- C2 (amended): `del-node` on a primary fails before any slot motion
exactly when fewer than two *other* primaries exist (a total below
three); with exactly three primaries in the cluster the check passes and
a slot-owning target proceeds to the drain. -/
theorem C2_reject_iff (slotCount otherMasters : Nat) :
    (delNodeRejects (delNodeDecision true slotCount otherMasters) = true
      ↔ otherMasters < 2)
    ∧ (0 < slotCount → 2 ≤ otherMasters →
        delNodeDecision true slotCount otherMasters = .drainThenRemove) := by
  constructor
  · unfold delNodeDecision
    by_cases hs : slotCount > 0 <;>
      by_cases h0 : otherMasters = 0 <;>
        by_cases h2 : otherMasters < 2 <;>
          simp [hs, h0, h2, delNodeRejects]
  · intro hs h2
    have h0 : otherMasters ≠ 0 := by omega
    have h2' : ¬otherMasters < 2 := by omega
    simp [delNodeDecision, hs, h0, h2']

/-- C2 witness: a primary with one slot and two other primaries is
drained rather than rejected. -/
theorem C2_witness : delNodeDecision true 1 2 = .drainThenRemove :=
  (C2_reject_iff 1 2).2 (by decide) (by decide)

/-- C2 counterexample: in a cluster with exactly three primaries
(`otherMasters = 2`), `del-node` on a slot-owning primary is *not*
rejected — slot motion is attempted, refuting the claimed failure. -/
theorem C2_counterexample :
    delNodeDecision true 100 2 = .drainThenRemove
    ∧ delNodeRejects (delNodeDecision true 100 2) = false := by
  constructor <;> decide

/-- C4: every `MIGRATE` command the tool builds carries `AUTH2 user
password` when a username is set and `AUTH password` when only a password
is set; with neither set, the two builder functions append no
authentication argument, and the rebalance pipeline site is unreachable
because `config.ValidateAuth` rejects an empty password at every command
entry. -/
theorem C4_migrate_auth (th tp k u p : String) :
    (u ≠ "" →
      buildMigrateCommand th tp k u p
          = baseMigrateCmd th tp k ++ [.str "AUTH2", .str u, .str p]
        ∧ buildMigrateCommandForReshard th tp k u p
          = baseMigrateCmd th tp k ++ [.str "AUTH2", .str u, .str p]
        ∧ migrateKeysBatchCmd th tp k u p
          = baseMigrateCmd th tp k ++ [.str "AUTH2", .str u, .str p])
    ∧ (u = "" → p ≠ "" →
      buildMigrateCommand th tp k u p
          = baseMigrateCmd th tp k ++ [.str "AUTH", .str p]
        ∧ buildMigrateCommandForReshard th tp k u p
          = baseMigrateCmd th tp k ++ [.str "AUTH", .str p]
        ∧ migrateKeysBatchCmd th tp k u p
          = baseMigrateCmd th tp k ++ [.str "AUTH", .str p])
    ∧ (u = "" → p = "" →
      buildMigrateCommand th tp k u p = baseMigrateCmd th tp k
        ∧ buildMigrateCommandForReshard th tp k u p = baseMigrateCmd th tp k
        ∧ validateAuth p ≠ none) := by
  refine ⟨fun hu => ?_, fun hu hp => ?_, fun hu hp => ?_⟩
  · simp [buildMigrateCommand, buildMigrateCommandForReshard, migrateKeysBatchCmd, hu,
      baseMigrateCmd]
  · simp [buildMigrateCommand, buildMigrateCommandForReshard, migrateKeysBatchCmd, hu, hp,
      baseMigrateCmd]
  · subst hp
    simp [buildMigrateCommand, buildMigrateCommandForReshard, hu, validateAuth]

/-- C4 witness: with a username and password set, the del-node builder
ends the command with `AUTH2 user password`. -/
theorem C4_witness :
    buildMigrateCommand "127.0.0.1" "7002" "k1" "admin" "pw"
      = baseMigrateCmd "127.0.0.1" "7002" "k1" ++ [.str "AUTH2", .str "admin", .str "pw"] :=
  ((C4_migrate_auth "127.0.0.1" "7002" "k1" "admin" "pw").1 (by decide)).1

/-- Inserting an element that sorts no later than a whole sorted list
puts it in front. -/
theorem insertLex_front (s : String) :
    ∀ xs : List String, (∀ x ∈ xs, lexLe s x = true) → insertLex s xs = s :: xs := by
  intro xs h
  cases xs with
  | nil => rfl
  | cons x rest => simp [insertLex, h x (List.mem_cons_self x rest)]

/-- Insertion sort fixes an already `lexLe`-sorted list. -/
theorem sortLex_of_pairwise :
    ∀ l : List String, List.Pairwise (fun a b => lexLe a b = true) l → sortLex l = l := by
  intro l hl
  induction l with
  | nil => rfl
  | cons x rest ih =>
    rw [List.pairwise_cons] at hl
    simp only [sortLex]
    rw [ih hl.2, insertLex_front x rest hl.1]

/-- C7 (amended): the add-node convergence signature is the list of
`node_id:flags` parts exactly as reported — unsorted and with no flag
stripping — joined with `|`; it coincides with the spec's canonical
signature (sorted, `myself`/`handshake` stripped) precisely on views that
carry neither flag and whose parts already arrive sorted. -/
theorem C7_signature (nodes : List CNode)
    (hclean : ∀ n ∈ nodes, "myself" ∉ n.Flags ∧ "handshake" ∉ n.Flags)
    (hsorted : List.Pairwise (fun a b => lexLe a b = true)
      (nodes.map (fun n => n.ID ++ ":" ++ String.intercalate "," n.Flags))) :
    createClusterSignature nodes = specCanonicalSignature nodes := by
  unfold createClusterSignature specCanonicalSignature
  have hmap :
      nodes.map (fun n =>
          n.ID ++ ":" ++
            String.intercalate "," (n.Flags.filter (fun f => ¬(f = "myself" || f = "handshake"))))
        = nodes.map (fun n => n.ID ++ ":" ++ String.intercalate "," n.Flags) := by
    apply List.map_congr_left
    intro n hn
    have hfix : n.Flags.filter (fun f => ¬(f = "myself" || f = "handshake")) = n.Flags := by
      apply List.filter_eq_self.mpr
      intro a ha
      have h1 : a ≠ "myself" := fun hh => (hclean n hn).1 (hh ▸ ha)
      have h2 : a ≠ "handshake" := fun hh => (hclean n hn).2 (hh ▸ ha)
      simp [h1, h2]
    rw [hfix]
  rw [hmap, sortLex_of_pairwise _ hsorted]

/-- C7 witness: on a clean, already-sorted two-node view the two
signatures agree. -/
theorem C7_witness :
    createClusterSignature [⟨"a", ["master"]⟩, ⟨"b", ["slave"]⟩]
      = specCanonicalSignature [⟨"a", ["master"]⟩, ⟨"b", ["slave"]⟩] :=
  C7_signature [⟨"a", ["master"]⟩, ⟨"b", ["slave"]⟩] (by decide) (by decide)

/-- C7 counterexample: on a view whose node carries the `myself` flag the
code's signature keeps the flag while the claimed canonical signature
strips it — the two differ, refuting the claim. -/
theorem C7_counterexample :
    createClusterSignature [⟨"a", ["myself", "master"]⟩]
      ≠ specCanonicalSignature [⟨"a", ["myself", "master"]⟩] := by
  decide

/-- The del-node retry loop issues at most `remaining` further attempts. -/
theorem delNodeKeyRetryAux_attempts_le (res : Nat → Option String) :
    ∀ (remaining retry : Nat) (lastErr : Option String) (att : Nat) (sleeps : List Nat),
      (delNodeKeyRetryAux res remaining retry lastErr att sleeps).attempts ≤ att + remaining := by
  intro remaining
  induction remaining with
  | zero => intro retry lastErr att sleeps; simp [delNodeKeyRetryAux]
  | succ rem ih =>
    intro retry lastErr att sleeps
    simp only [delNodeKeyRetryAux]
    cases res retry with
    | none => simp
    | some e =>
      by_cases hn : isNetworkErr e = true
      · simp only [hn, if_pos rfl]
        calc (delNodeKeyRetryAux res rem (retry + 1) (some e) (att + 1)
                (sleeps ++ [(retry + 1) * 100])).attempts
            ≤ (att + 1) + rem := ih (retry + 1) (some e) (att + 1) _
          _ ≤ att + (rem + 1) := by omega
      · simp only [Bool.not_eq_true] at hn
        simp [hn]

/-- C3 (amended): only the del-node drain retries a key's `MIGRATE`: up
to 3 attempts in total on network errors (messages containing "timeout"
or "connection"), sleeping `100 ms × attempt number` after each failed
network attempt, before the slot aborts; the reshard path aborts the slot
on the first `MIGRATE` error with no retry and no sleep, and the
rebalance pipeline path issues exactly one `MIGRATE` per key of the
batch, likewise without retry or sleep. -/
theorem C3_retry_behavior :
    (∀ res : Nat → Option String,
        (∀ n, n < 3 → ∃ e, res n = some e ∧ isNetworkErr e = true) →
        delNodeKeyMigrate res = ⟨res 2, 3, [100, 200, 300]⟩)
    ∧ (∀ res : Nat → Option String, res 0 = none → delNodeKeyMigrate res = ⟨none, 1, []⟩)
    ∧ (∀ (res : Nat → Option String) (e : String), res 0 = some e → isNetworkErr e = false →
        delNodeKeyMigrate res = ⟨some e, 1, []⟩)
    ∧ (∀ res : Nat → Option String, (delNodeKeyMigrate res).attempts ≤ 3)
    ∧ (∀ (res : String → Option String) (k : String) (rest : List String) (e : String),
        res k = some e → reshardMigrateKeys res (k :: rest) = ⟨some e, 1, []⟩)
    ∧ (∀ (res : String → Option String) (keys : List String),
        (reshardMigrateKeys res keys).attempts ≤ keys.length
          ∧ (reshardMigrateKeys res keys).sleepsMs = [])
    ∧ (∀ (res : String → Option String) (keys : List String),
        (rebalanceMigrateKeysBatch res keys).attempts = keys.length
          ∧ (rebalanceMigrateKeysBatch res keys).sleepsMs = []) := by
  refine ⟨?_, ?_, ?_, ?_, ?_, ?_, ?_⟩
  · intro res h
    obtain ⟨e0, he0, hn0⟩ := h 0 (by omega)
    obtain ⟨e1, he1, hn1⟩ := h 1 (by omega)
    obtain ⟨e2, he2, hn2⟩ := h 2 (by omega)
    simp [delNodeKeyMigrate, delNodeKeyRetryAux, he0, hn0, he1, hn1, he2, hn2]
  · intro res h
    simp [delNodeKeyMigrate, delNodeKeyRetryAux, h]
  · intro res e h hn
    simp [delNodeKeyMigrate, delNodeKeyRetryAux, h, hn]
  · intro res
    exact delNodeKeyRetryAux_attempts_le res 3 0 none 0 []
  · intro res k rest e h
    simp [reshardMigrateKeys, h]
  · intro res keys
    induction keys with
    | nil => simp [reshardMigrateKeys]
    | cons k rest ih =>
      simp only [reshardMigrateKeys]
      cases res k with
      | some e => simp
      | none => simp only; constructor
                · simpa [Nat.add_le_add_iff_right] using ih.1
                · exact ih.2
  · intro res keys
    simp [rebalanceMigrateKeysBatch]

/-- C3 witness: with every attempt failing on a timeout, the del-node
path makes 3 attempts with sleeps of 100, 200 and 300 ms, then aborts. -/
theorem C3_witness :
    delNodeKeyMigrate (fun _ => some "timeout") = ⟨some "timeout", 3, [100, 200, 300]⟩ :=
  C3_retry_behavior.1 (fun _ => some "timeout") (fun n _ => ⟨"timeout", rfl, by decide⟩)

/-- C3 counterexample: in the reshard path a key whose `MIGRATE` fails
with a timeout — a network error — is attempted exactly once, with no
sleep, and the slot aborts, refuting the claimed 3-attempt backoff in
every path. -/
theorem C3_counterexample :
    reshardMigrateKeys (fun _ => some "timeout") ["k"] = ⟨some "timeout", 1, []⟩
    ∧ isNetworkErr "timeout" = true := by
  constructor <;> decide

/-- Every event of the drain loop is a key query or a key `MIGRATE`. -/
theorem drainTrace_mem (slot : Nat) :
    ∀ (batches : List (List String)) (e : MigEvent), e ∈ drainTrace slot batches →
      e = .getKeys slot ∨ ∃ k, e = .migrateKey k := by
  intro batches
  induction batches with
  | nil => intro e he; simp [drainTrace] at he; exact Or.inl he
  | cons b rest ih =>
    intro e he
    simp only [drainTrace] at he
    rcases List.mem_cons.mp he with h | h
    · exact Or.inl h
    · by_cases hb : b = []
      · simp [hb] at h
      · simp only [if_neg hb, List.mem_append] at h
        rcases h with h | h
        · obtain ⟨k, _, hk⟩ := List.mem_map.mp h
          exact Or.inr ⟨k, hk.symm⟩
        · exact ih e h

/-- Reading inside the two-events-then-drain-then-tail shape shared by
the three per-slot traces. -/
theorem traceShape (slot : Nat) (batches : List (List String)) (e0 e1 : MigEvent)
    (tail : List MigEvent) :
    (e0 :: e1 :: (drainTrace slot batches ++ tail)).length
        = (drainTrace slot batches).length + tail.length + 2
    ∧ (e0 :: e1 :: (drainTrace slot batches ++ tail))[0]? = some e0
    ∧ (e0 :: e1 :: (drainTrace slot batches ++ tail))[1]? = some e1
    ∧ (∀ j e, (e0 :: e1 :: (drainTrace slot batches ++ tail))[j + 2]? = some e →
        (j < (drainTrace slot batches).length
            ∧ (e = .getKeys slot ∨ ∃ k, e = .migrateKey k))
          ∨ ((drainTrace slot batches).length ≤ j
              ∧ tail[j - (drainTrace slot batches).length]? = some e))
    ∧ (∀ j', (e0 :: e1 :: (drainTrace slot batches ++ tail))[(drainTrace slot batches).length + 2 + j']?
        = tail[j']?) := by
  refine ⟨?_, ?_, ?_, ?_, ?_⟩
  · simp
  · simp
  · simp
  · intro j e he
    rw [List.getElem?_cons_succ, List.getElem?_cons_succ, List.getElem?_append] at he
    by_cases hj : j < (drainTrace slot batches).length
    · rw [if_pos hj] at he
      exact Or.inl ⟨hj, drainTrace_mem slot batches e (List.getElem?_mem he)⟩
    · rw [if_neg hj] at he
      exact Or.inr ⟨Nat.le_of_not_lt hj, he⟩
  · intro j'
    have : (drainTrace slot batches).length + 2 + j'
        = ((drainTrace slot batches).length + j') + 1 + 1 := by omega
    rw [this, List.getElem?_cons_succ, List.getElem?_cons_succ,
      List.getElem?_append_right (by omega)]
    congr 1
    omega

/-- C1 (amended): in the reshard and rebalance paths each slot's commands
are issued in the strict order `SETSLOT MIGRATING` on the source, then
`SETSLOT IMPORTING` on the target, then the key fetch-and-`MIGRATE` loop
until the source reports no keys, then `SETSLOT NODE` on source then
target; the del-node drain issues the same commands per slot but with
`IMPORTING` on the target *before* `MIGRATING` on the source, followed by
the drain, the two `SETSLOT NODE` commands, and the cluster-wide
ownership fan-out.  Positions are given relative to the drain-loop length
`D`; each trace has exactly the stated shape. -/
theorem C1_migration_order (slot : Nat) (batches : List (List String)) :
    (reshardSlotTrace slot batches).length = (drainTrace slot batches).length + 4
    ∧ (reshardSlotTrace slot batches)[0]? = some (.migrating slot)
    ∧ (reshardSlotTrace slot batches)[1]? = some (.importing slot)
    ∧ (∀ i k, (reshardSlotTrace slot batches)[i]? = some (.migrateKey k) →
        2 ≤ i ∧ i < (drainTrace slot batches).length + 2)
    ∧ (reshardSlotTrace slot batches)[(drainTrace slot batches).length + 2]?
        = some (.nodeOnSource slot)
    ∧ (reshardSlotTrace slot batches)[(drainTrace slot batches).length + 3]?
        = some (.nodeOnTarget slot)
    ∧ (∀ i, (reshardSlotTrace slot batches)[i]? = some (.migrating slot) → i = 0)
    ∧ (∀ i, (reshardSlotTrace slot batches)[i]? = some (.importing slot) → i = 1)
    ∧ rebalanceSlotTrace slot batches = reshardSlotTrace slot batches
    ∧ (delNodeSlotTrace slot batches).length = (drainTrace slot batches).length + 5
    ∧ (delNodeSlotTrace slot batches)[0]? = some (.importing slot)
    ∧ (delNodeSlotTrace slot batches)[1]? = some (.migrating slot)
    ∧ (∀ i k, (delNodeSlotTrace slot batches)[i]? = some (.migrateKey k) →
        2 ≤ i ∧ i < (drainTrace slot batches).length + 2)
    ∧ (delNodeSlotTrace slot batches)[(drainTrace slot batches).length + 2]?
        = some (.nodeOnSource slot)
    ∧ (delNodeSlotTrace slot batches)[(drainTrace slot batches).length + 3]?
        = some (.nodeOnTarget slot)
    ∧ (delNodeSlotTrace slot batches)[(drainTrace slot batches).length + 4]?
        = some (.propagateAll slot) := by
  obtain ⟨hlen, h0, h1, hmid, htail⟩ :=
    traceShape slot batches (.migrating slot) (.importing slot)
      [.nodeOnSource slot, .nodeOnTarget slot]
  obtain ⟨hlen', h0', h1', hmid', htail'⟩ :=
    traceShape slot batches (.importing slot) (.migrating slot)
      [.nodeOnSource slot, .nodeOnTarget slot, .propagateAll slot]
  have tailNe : ∀ (d : Nat) (e : MigEvent),
      [MigEvent.nodeOnSource slot, MigEvent.nodeOnTarget slot][d]? = some e →
      e = .nodeOnSource slot ∨ e = .nodeOnTarget slot := by
    intro d e he
    have hm := List.getElem?_mem he
    simpa using hm
  have tailNe' : ∀ (d : Nat) (e : MigEvent),
      [MigEvent.nodeOnSource slot, MigEvent.nodeOnTarget slot,
        MigEvent.propagateAll slot][d]? = some e →
      e = .nodeOnSource slot ∨ e = .nodeOnTarget slot ∨ e = .propagateAll slot := by
    intro d e he
    have hm := List.getElem?_mem he
    simpa using hm
  refine ⟨?_, h0, h1, ?_, ?_, ?_, ?_, ?_, rfl, ?_, h0', h1', ?_, ?_, ?_, ?_⟩
  · show (_ : List MigEvent).length = _
    simp [reshardSlotTrace]
  · intro i k hi
    match i, hi with
    | 0, hi => simp [reshardSlotTrace] at hi
    | 1, hi => simp [reshardSlotTrace] at hi
    | j + 2, hi =>
      rcases hmid j _ hi with ⟨hj, _⟩ | ⟨hj, he⟩
      · omega
      · rcases tailNe _ _ he with h | h <;> simp at h
  · have h := htail 0
    rw [Nat.add_zero] at h
    exact h.trans (by simp)
  · have h := htail 1
    rw [show (drainTrace slot batches).length + 3
        = (drainTrace slot batches).length + 2 + 1 from by omega]
    exact h.trans (by simp)
  · intro i hi
    match i, hi with
    | 0, _ => rfl
    | 1, hi => simp [reshardSlotTrace] at hi
    | j + 2, hi =>
      rcases hmid j _ hi with ⟨_, hor⟩ | ⟨hj, he⟩
      · rcases hor with h | ⟨k, h⟩ <;> simp at h
      · rcases tailNe _ _ he with h | h <;> simp at h
  · intro i hi
    match i, hi with
    | 0, hi => simp [reshardSlotTrace] at hi
    | 1, _ => rfl
    | j + 2, hi =>
      rcases hmid j _ hi with ⟨_, hor⟩ | ⟨hj, he⟩
      · rcases hor with h | ⟨k, h⟩ <;> simp at h
      · rcases tailNe _ _ he with h | h <;> simp at h
  · show (_ : List MigEvent).length = _
    simp [delNodeSlotTrace]
  · intro i k hi
    match i, hi with
    | 0, hi => simp [delNodeSlotTrace] at hi
    | 1, hi => simp [delNodeSlotTrace] at hi
    | j + 2, hi =>
      rcases hmid' j _ hi with ⟨hj, _⟩ | ⟨hj, he⟩
      · omega
      · rcases tailNe' _ _ he with h | h | h <;> simp at h
  · have h := htail' 0
    rw [Nat.add_zero] at h
    exact h.trans (by simp)
  · have h := htail' 1
    rw [show (drainTrace slot batches).length + 3
        = (drainTrace slot batches).length + 2 + 1 from by omega]
    exact h.trans (by simp)
  · have h := htail' 2
    rw [show (drainTrace slot batches).length + 4
        = (drainTrace slot batches).length + 2 + 2 from by omega]
    exact h.trans (by simp)

/-- C1 counterexample: in the del-node drain the very first two commands
for a slot are `SETSLOT IMPORTING` on the target and only then `SETSLOT
MIGRATING` on the source — `IMPORTING` is issued before `MIGRATING`,
refuting the claimed order for that path. -/
theorem C1_counterexample :
    (delNodeSlotTrace 0 [])[0]? = some (.importing 0)
    ∧ (delNodeSlotTrace 0 [])[1]? = some (.migrating 0) := by
  constructor <;> decide

/-- The role re-validation changes only the two role booleans, and
applies the claimed priority. -/
theorem roleOverride_spec (n0 : CheckNode) :
    (roleOverride n0).MasterID = n0.MasterID
    ∧ (roleOverride n0).Slots = n0.Slots
    ∧ (roleOverride n0).Flags = n0.Flags
    ∧ (n0.MasterID ≠ "" → n0.MasterID ≠ "-" →
        (roleOverride n0).IsReplica = true ∧ (roleOverride n0).IsMaster = false)
    ∧ ((n0.MasterID = "" ∨ n0.MasterID = "-") → n0.Slots ≠ [] →
        (roleOverride n0).IsMaster = true ∧ (roleOverride n0).IsReplica = false)
    ∧ ((n0.MasterID = "" ∨ n0.MasterID = "-") → n0.Slots = [] →
        (roleOverride n0).IsMaster = n0.IsMaster
          ∧ (roleOverride n0).IsReplica = n0.IsReplica) := by
  unfold roleOverride
  by_cases h1 : n0.MasterID ≠ "" ∧ n0.MasterID ≠ "-"
  · rw [if_pos h1]
    refine ⟨rfl, rfl, rfl, fun _ _ => ⟨rfl, rfl⟩, ?_, ?_⟩
    · intro hm _
      rcases hm with hm | hm
      · exact absurd hm h1.1
      · exact absurd hm h1.2
    · intro hm _
      rcases hm with hm | hm
      · exact absurd hm h1.1
      · exact absurd hm h1.2
  · rw [if_neg h1]
    have hm : n0.MasterID = "" ∨ n0.MasterID = "-" := by
      rcases not_and_or.mp h1 with h | h
      · exact Or.inl (not_not.mp h)
      · exact Or.inr (not_not.mp h)
    by_cases h2 : n0.Slots ≠ []
    · rw [if_pos h2]
      refine ⟨rfl, rfl, rfl, ?_, fun _ _ => ⟨rfl, rfl⟩, ?_⟩
      · intro hne hnd
        rcases hm with h | h
        · exact absurd h hne
        · exact absurd h hnd
      · intro _ hnil
        exact absurd hnil h2
    · rw [if_neg h2]
      have h2' : n0.Slots = [] := not_not.mp h2
      refine ⟨rfl, rfl, rfl, ?_, ?_, fun _ _ => ⟨rfl, rfl⟩⟩
      · intro hne hnd
        rcases hm with h | h
        · exact absurd h hne
        · exact absurd h hnd
      · intro _ hnil
        exact absurd h2' hnil

/-- The raw parse never records `-` as a master id, keeps the split
flags, and takes its role booleans from the flag parser. -/
theorem parseClusterNodeRaw_fields (line : String) (n0 : CheckNode)
    (h : parseClusterNodeRaw line = some n0) :
    n0.MasterID ≠ "-"
    ∧ n0.IsMaster = (parseNodeFlagsSlice n0.Flags).IsMaster
    ∧ n0.IsReplica = (parseNodeFlagsSlice n0.Flags).IsReplica := by
  unfold parseClusterNodeRaw at h
  by_cases hlen : (goFields line).length < 8
  · simp [hlen] at h
  · simp only [if_neg hlen, Option.some.injEq] at h
    subst h
    refine ⟨?_, rfl, rfl⟩
    by_cases hd : (goFields line)[3]?.getD "" = "-"
    · simp [hd]
    · simp [hd]

/-- C8 (amended): `check`'s `parseClusterNode` assigns the role by the
claimed priority — a set (hence non-dash) `primary_id` makes the node a
replica regardless of flags, otherwise owned slots make it a primary,
otherwise the flag-based role stands; the rebalance topology reader
(`getCurrentClusterTopology`), by contrast, classifies purely by the
`master`/`slave` flags and never consults `primary_id`. -/
theorem C8_role_priority (line : String) (node : CheckNode)
    (h : parseClusterNode line = some node) :
    (node.MasterID ≠ "" → node.IsReplica = true ∧ node.IsMaster = false)
    ∧ (node.MasterID = "" → node.Slots ≠ [] →
        node.IsMaster = true ∧ node.IsReplica = false)
    ∧ (node.MasterID = "" → node.Slots = [] →
        node.IsMaster = (parseNodeFlagsSlice node.Flags).IsMaster
          ∧ node.IsReplica = (parseNodeFlagsSlice node.Flags).IsReplica) := by
  unfold parseClusterNode at h
  cases hraw : parseClusterNodeRaw line with
  | none => rw [hraw] at h; simp at h
  | some n0 =>
    rw [hraw] at h
    simp only [Option.map_some', Option.some.injEq] at h
    subst h
    obtain ⟨hdash, hm0, hr0⟩ := parseClusterNodeRaw_fields line n0 hraw
    obtain ⟨hMid, hSlots, hFlags, hrep, hmas, hfall⟩ := roleOverride_spec n0
    refine ⟨?_, ?_, ?_⟩
    · intro hne
      exact hrep (by rwa [hMid] at hne) hdash
    · intro he hs
      exact hmas (Or.inl (by rwa [hMid] at he)) (by rwa [hSlots] at hs)
    · intro he hs
      obtain ⟨ha, hb⟩ := hfall (Or.inl (by rwa [hMid] at he)) (by rwa [hSlots] at hs)
      rw [hFlags]
      exact ⟨ha.trans hm0, hb.trans hr0⟩

/-- C8 witness: a line whose flags say `master` but whose `primary_id`
field is set parses, under the priority rule, as a replica. -/
theorem C8_witness :
    parseClusterNode "aaaa 127.0.0.1:7001 master bbbb 0 0 1 connected"
        = some ⟨"aaaa", "127.0.0.1:7001", "bbbb", ["master"], false, true, false, false, []⟩
    ∧ (⟨"aaaa", "127.0.0.1:7001", "bbbb", ["master"], false, true, false, false, []⟩
          : CheckNode).IsReplica = true
    ∧ (⟨"aaaa", "127.0.0.1:7001", "bbbb", ["master"], false, true, false, false, []⟩
          : CheckNode).IsMaster = false :=
  ⟨by decide,
    (C8_role_priority "aaaa 127.0.0.1:7001 master bbbb 0 0 1 connected"
      ⟨"aaaa", "127.0.0.1:7001", "bbbb", ["master"], false, true, false, false, []⟩
      (by decide)).1 (by decide)⟩

/-- C8 counterexample: the rebalance topology reader classifies the very
same line — `master` flag with a set, non-dash `primary_id` — as a
primary, refuting the claimed priority for every cluster-view parse
site. -/
theorem C8_counterexample :
    topologyEntry "aaaa 127.0.0.1:7001 master bbbb 0 0 1 connected"
        = some (Sum.inl ⟨"aaaa", "127.0.0.1:7001", []⟩)
    ∧ (goFields "aaaa 127.0.0.1:7001 master bbbb 0 0 1 connected").getD 3 "" ≠ "-" := by
  constructor <;> decide

/-- Peeling the first index off a sum of `f` over an index window. -/
theorem rangeMapSum_succ (f : Nat → Nat) (i left : Nat) :
    ((List.range (left + 1)).map (fun t => f (i + t))).sum
      = f i + ((List.range left).map (fun t => f (i + 1 + t))).sum := by
  rw [List.range_succ_eq_map, List.map_cons, List.sum_cons, List.map_map]
  have hc : (fun t => f (i + t)) ∘ Nat.succ = fun t => f (i + 1 + t) := by
    funext t
    show f (i + Nat.succ t) = f (i + 1 + t)
    congr 1
    omega
  rw [Nat.add_zero, hc]

/-- Sum of a constant plus a prefix indicator over `range n`. -/
theorem sumBaseInd (b r : Nat) :
    ∀ n, ((List.range n).map (fun i => b + if i < r then 1 else 0)).sum = n * b + min r n := by
  intro n
  induction n with
  | zero => simp
  | succ n ih =>
    rw [List.range_succ, List.map_append, List.sum_append, ih, Nat.succ_mul]
    rcases Nat.lt_or_ge n r with h | h
    · rw [List.map_cons, List.map_nil, List.sum_cons, List.sum_nil, if_pos h,
        min_eq_right (Nat.le_of_lt h), min_eq_right h]
      omega
    · rw [List.map_cons, List.map_nil, List.sum_cons, List.sum_nil,
        if_neg (Nat.not_lt.mpr h), min_eq_left h, min_eq_left (Nat.le_succ_of_le h)]
      omega

/-- The `createK` column sums to the whole slot space. -/
theorem createK_total (m : Nat) (h : 1 ≤ m) :
    ((List.range m).map (fun t => createK m (0 + t))).sum = 16384 := by
  have he : (fun t => createK m (0 + t))
      = fun t => 16384 / m + if t < 16384 % m then 1 else 0 := by
    funext t
    simp [createK]
  rw [he, sumBaseInd]
  have hmod : 16384 % m < m := Nat.mod_lt _ (by omega)
  have hdm := Nat.div_add_mod 16384 m
  omega

/-- The assignment loop produces one range per remaining master. -/
theorem assignRangesAux_length (m : Nat) :
    ∀ (left i : Nat) (current : Int), (assignRangesAux m left i current).length = left := by
  intro left
  induction left with
  | zero => intro i current; simp [assignRangesAux]
  | succ lf ih => intro i current; simp [assignRangesAux, ih]

/-- Each produced range starts at the running prefix sum and ends one
slot before the next prefix sum. -/
theorem assignRangesAux_getD (m : Nat) :
    ∀ (left i : Nat) (current : Int) (j : Nat), j < left →
      (assignRangesAux m left i current).getD j (0, 0)
        = (current + ((((List.range j).map (fun t => createK m (i + t))).sum : Nat) : Int),
           current + ((((List.range (j + 1)).map (fun t => createK m (i + t))).sum : Nat) : Int)
             - 1) := by
  intro left
  induction left with
  | zero => intro i current j hj; omega
  | succ lf ih =>
    intro i current j hj
    cases j with
    | zero =>
      simp only [assignRangesAux, List.getD_cons_zero]
      simp [rangeMapSum_succ (createK m) i 0]
    | succ j' =>
      simp only [assignRangesAux, List.getD_cons_succ]
      rw [ih (i + 1) (current + (createK m i : Nat)) j' (by omega)]
      rw [rangeMapSum_succ (createK m) i j', rangeMapSum_succ (createK m) i (j' + 1)]
      simp only [Prod.mk.injEq]
      constructor
      · push_cast
        ring
      · push_cast
        ring

/-- Flattening the per-range slot lists yields one contiguous run
starting at `current`. -/
theorem assignRangesAux_flatten (m : Nat) :
    ∀ (left i : Nat) (current : Int),
      ((assignRangesAux m left i current).map rangeSlots).flatten
        = (List.range (((List.range left).map (fun t => createK m (i + t))).sum)).map
            (fun s : Nat => current + (s : Int)) := by
  intro left
  induction left with
  | zero => intro i current; simp [assignRangesAux]
  | succ lf ih =>
    intro i current
    simp only [assignRangesAux, List.map_cons, List.flatten_cons]
    rw [ih (i + 1) (current + (createK m i : Nat))]
    have hhead : rangeSlots (current, current + ((createK m i : Nat) : Int) - 1)
        = (List.range (createK m i)).map (fun s : Nat => current + (s : Int)) := by
      unfold rangeSlots
      have harith : (current + ((createK m i : Nat) : Int) - 1) + 1 - current
          = ((createK m i : Nat) : Int) := by ring
      simp only [harith, Int.toNat_natCast]
    rw [hhead, rangeMapSum_succ (createK m) i lf]
    rw [List.range_add]
    rw [List.map_append]
    rw [List.map_map]
    congr 1
    apply List.map_congr_left
    intro a _
    simp only [Function.comp]
    push_cast
    ring

/-- C6: in `create` with `m ≥ 1` primaries, primary `i` receives the
contiguous range starting where primary `i−1`'s range ends, of size
`⌊16384/m⌋` plus one exactly while `i < 16384 mod m`; the `m` ranges are
pairwise disjoint and together cover exactly the slots `[0, 16384)` in
order. -/
theorem C6_create_slot_layout (m : Nat) (h : 1 ≤ m) :
    (assignRanges m).length = m
    ∧ (∀ i, i < m →
        (assignRanges m).getD i (0, 0)
          = (((((List.range i).map (createK m)).sum : Nat) : Int),
             ((((List.range (i + 1)).map (createK m)).sum : Nat) : Int) - 1))
    ∧ ((assignRanges m).map rangeSlots).Pairwise List.Disjoint
    ∧ ((assignRanges m).map rangeSlots).flatten
        = (List.range 16384).map (fun s : Nat => (s : Int)) := by
  have hflat : ((assignRanges m).map rangeSlots).flatten
      = (List.range 16384).map (fun s : Nat => (s : Int)) := by
    unfold assignRanges
    rw [assignRangesAux_flatten m m 0 0, createK_total m h]
    apply List.map_congr_left
    intro a _
    ring
  refine ⟨?_, ?_, ?_, hflat⟩
  · exact assignRangesAux_length m m 0 0
  · intro i hi
    rw [assignRanges, assignRangesAux_getD m m 0 0 i hi]
    simp [Nat.zero_add]
  · have hnd : (((assignRanges m).map rangeSlots).flatten).Nodup := by
      rw [hflat]
      exact (List.nodup_range 16384).map (fun a b hab => Int.natCast_inj.mp hab)
    exact (List.nodup_flatten.mp hnd).2

/-- C6 witness: the theorem applied to three primaries. -/
theorem C6_witness :
    ((assignRanges 3).map rangeSlots).flatten
      = (List.range 16384).map (fun s : Nat => (s : Int)) :=
  (C6_create_slot_layout 3 (by decide)).2.2.2

/-- Inserting into the count-sorted list is a permutation of consing. -/
theorem insertByCount_perm (m : MasterNode) :
    ∀ l : List MasterNode, (insertByCount m l).Perm (m :: l) := by
  intro l
  induction l with
  | nil => simp [insertByCount]
  | cons x xs ih =>
    unfold insertByCount
    by_cases h : x.Slots.length < m.Slots.length
    · simp [h]
    · simp only [h, if_false]
      exact ((ih.cons x).trans (List.Perm.swap m x xs))

/-- The descending count sort permutes its input. -/
theorem sortByCountDesc_perm :
    ∀ l : List MasterNode, (sortByCountDesc l).Perm l := by
  intro l
  induction l with
  | nil => simp [sortByCountDesc]
  | cons x xs ih =>
    exact (insertByCount_perm x (sortByCountDesc xs)).trans (ih.cons x)

/-- A fold of `max` over a list is permutation-invariant. -/
theorem foldr_max_perm : ∀ {l₁ l₂ : List Nat}, l₁.Perm l₂ →
    l₁.foldr max 0 = l₂.foldr max 0 := by
  intro l₁ l₂ h
  induction h with
  | nil => rfl
  | cons x _ ih => simp [List.foldr_cons, ih]
  | swap x y l => simp [List.foldr_cons, max_left_comm]
  | trans _ _ ih1 ih2 => exact ih1.trans ih2

/-- `maxDev` is permutation-invariant. -/
theorem maxDev_perm {ms₁ ms₂ : List MasterNode} (h : ms₁.Perm ms₂) (ideal : Nat) :
    maxDev ms₁ ideal = maxDev ms₂ ideal :=
  foldr_max_perm (h.map _)

/-- `sumExcess` is permutation-invariant. -/
theorem sumExcess_perm {ms₁ ms₂ : List MasterNode} (h : ms₁.Perm ms₂) (ideal : Nat) :
    sumExcess ms₁ ideal = sumExcess ms₂ ideal :=
  (h.map _).sum_eq

/-- `getD` after `set`, with the out-of-bounds no-op made explicit. -/
theorem listGetDSet {α : Type} (l : List α) (i : Nat) (x : α) (j : Nat) (δ : α) :
    (l.set i x).getD j δ = if j = i ∧ i < l.length then x else l.getD j δ := by
  by_cases hij : j = i
  · subst hij
    by_cases hlen : j < l.length
    · simp [List.getD_eq_getElem?_getD, List.getElem?_set, hlen]
    · rw [List.set_eq_of_length_le (by omega)]
      rw [if_neg (fun hc => hlen hc.2)]
  · rw [List.getD_eq_getElem?_getD, List.getElem?_set, if_neg (fun hc => hij hc.symm),
      if_neg (fun hc => hij hc.1), ← List.getD_eq_getElem?_getD]

/-- The pairing loop preserves the master-list length. -/
theorem planLoopAux_length (ideal : Nat) (donors receivers : List Nat) :
    ∀ (fuel : Nat) (ms : List MasterNode) (dIdx rIdx : Nat) (plan : List RebalancePlan),
      (planLoopAux ideal donors receivers fuel ms dIdx rIdx plan).2.length = ms.length := by
  intro fuel
  induction fuel with
  | zero => intro ms dIdx rIdx plan; rfl
  | succ f ih =>
    intro ms dIdx rIdx plan
    rw [planLoopAux]
    by_cases hg : dIdx < donors.length ∧ rIdx < receivers.length
    · rw [if_pos hg]
      split
      · rfl
      · rw [ih]
        simp [List.length_set]
    · rw [if_neg hg]

/-- A fold of `max` is monotone under a pointwise `getD` bound on lists
of equal length. -/
theorem foldr_max_le_pointwise :
    ∀ (l₁ l₂ : List Nat), l₁.length = l₂.length → (∀ j, l₁.getD j 0 ≤ l₂.getD j 0) →
      l₁.foldr max 0 ≤ l₂.foldr max 0 := by
  intro l₁
  induction l₁ with
  | nil => intro l₂ _ _; simp
  | cons a as ih =>
    intro l₂ hlen hpt
    cases l₂ with
    | nil => simp at hlen
    | cons b bs =>
      simp only [List.foldr_cons]
      refine max_le_max (hpt 0) (ih bs ?_ ?_)
      · simpa using hlen
      · intro j
        exact hpt (j + 1)

/-- Pointwise deviation bounds lift to `maxDev`. -/
theorem maxDev_le_pointwise (ms₁ ms₂ : List MasterNode) (ideal : Nat)
    (hlen : ms₁.length = ms₂.length)
    (hpt : ∀ j, Nat.dist ((ms₁.getD j ⟨"", "", []⟩).Slots.length) ideal
      ≤ Nat.dist ((ms₂.getD j ⟨"", "", []⟩).Slots.length) ideal) :
    maxDev ms₁ ideal ≤ maxDev ms₂ ideal := by
  unfold maxDev
  apply foldr_max_le_pointwise
  · simp [hlen]
  · intro j
    rw [List.getD_eq_getElem?_getD, List.getElem?_map,
      List.getD_eq_getElem?_getD, List.getElem?_map]
    by_cases hj : j < ms₁.length
    · rw [List.getElem?_eq_getElem hj, List.getElem?_eq_getElem (by omega : j < ms₂.length)]
      have h1 : ms₁.getD j ⟨"", "", []⟩ = ms₁[j] := by
        rw [List.getD_eq_getElem?_getD, List.getElem?_eq_getElem hj]
        rfl
      have h2 : ms₂.getD j ⟨"", "", []⟩ = ms₂[j] := by
        rw [List.getD_eq_getElem?_getD, List.getElem?_eq_getElem (by omega : j < ms₂.length)]
        rfl
      have := hpt j
      rw [h1, h2] at this
      simpa using this
    · have e1 : ms₁[j]? = none := List.getElem?_eq_none (by omega)
      have e2 : ms₂[j]? = none := List.getElem?_eq_none (by omega)
      rw [e1, e2]

/-- Arithmetic of one pairing step when a positive amount moves: the
donor is above the ideal, the receiver below, the transfer takes exactly
`min(excess, deficit)` slots, the donor ends at or above the ideal and
the receiver at or below it. -/
theorem stepFacts (ideal : Nat) (donor receiver : MasterNode)
    (h : ¬moveAmount ideal donor receiver ≤ 0) :
    ideal < donor.Slots.length
    ∧ receiver.Slots.length < ideal
    ∧ (transferOf ideal donor receiver).length = (moveAmount ideal donor receiver).toNat
    ∧ (donorAfter ideal donor receiver).Slots.length
        = donor.Slots.length - (moveAmount ideal donor receiver).toNat
    ∧ (receiverAfter ideal donor receiver).Slots.length
        = receiver.Slots.length + (moveAmount ideal donor receiver).toNat
    ∧ (moveAmount ideal donor receiver).toNat ≤ donor.Slots.length - ideal
    ∧ (moveAmount ideal donor receiver).toNat ≤ ideal - receiver.Slots.length
    ∧ 0 < (moveAmount ideal donor receiver).toNat := by
  have hm : moveAmount ideal donor receiver ≤ (donor.Slots.length : Int) - (ideal : Int)
      ∧ moveAmount ideal donor receiver ≤ (ideal : Int) - (receiver.Slots.length : Int) := by
    unfold moveAmount
    constructor <;> (split <;> omega)
  have h0 : 0 < moveAmount ideal donor receiver := by omega
  have hde : ideal < donor.Slots.length := by omega
  have hre : receiver.Slots.length < ideal := by omega
  have htr : (transferOf ideal donor receiver).length
      = (moveAmount ideal donor receiver).toNat := by
    unfold transferOf
    rw [List.length_take, List.length_reverse]
    omega
  refine ⟨hde, hre, htr, ?_, ?_, by omega, by omega, by omega⟩
  · show (donor.Slots.take
        (donor.Slots.length - (transferOf ideal donor receiver).length)).length = _
    rw [List.length_take, htr]
    omega
  · show (receiver.Slots ++ transferOf ideal donor receiver).length = _
    rw [List.length_append, htr]

/-- The pairing loop never worsens any master's absolute deviation from
the ideal slot count. -/
theorem planLoopAux_dev (ideal : Nat) (donors receivers : List Nat) (j : Nat) :
    ∀ (fuel : Nat) (ms : List MasterNode) (dIdx rIdx : Nat) (plan : List RebalancePlan),
      Nat.dist (((planLoopAux ideal donors receivers fuel ms dIdx rIdx plan).2.getD j
          ⟨"", "", []⟩).Slots.length) ideal
        ≤ Nat.dist ((ms.getD j ⟨"", "", []⟩).Slots.length) ideal := by
  intro fuel
  induction fuel with
  | zero => intro ms dIdx rIdx plan; exact le_refl _
  | succ f ih =>
    intro ms dIdx rIdx plan
    rw [planLoopAux]
    by_cases hg : dIdx < donors.length ∧ rIdx < receivers.length
    case neg =>
      rw [if_neg hg]
    case pos =>
      rw [if_pos hg]
      set d := donors.getD dIdx 0 with hd
      set r := receivers.getD rIdx 0 with hr
      set donor := ms.getD d ⟨"", "", []⟩ with hdonor
      set receiver := ms.getD r ⟨"", "", []⟩ with hrecv
      by_cases hmv : moveAmount ideal donor receiver ≤ 0
      · rw [if_pos hmv]
      · rw [if_neg hmv]
        obtain ⟨hde, hre, htr, hda, hra, hm1, hm2, hm0⟩ := stepFacts ideal donor receiver hmv
        refine le_trans (ih _ _ _ _) ?_
        rw [listGetDSet, listGetDSet]
        by_cases hjr : j = r ∧ r < (ms.set d (donorAfter ideal donor receiver)).length
        · rw [if_pos hjr]
          have hj : ms.getD j ⟨"", "", []⟩ = receiver := by rw [hjr.1, hrecv]
          rw [hra, hj]
          simp only [Nat.dist]
          omega
        · rw [if_neg hjr]
          by_cases hjd : j = d ∧ d < ms.length
          · rw [if_pos hjd]
            have hj : ms.getD j ⟨"", "", []⟩ = donor := by rw [hjd.1, hdonor]
            rw [hda, hj]
            simp only [Nat.dist]
            omega
          · rw [if_neg hjd]

/-- Replacing one master trades its excess term inside `sumExcess`. -/
theorem sumExcess_set (ms : List MasterNode) :
    ∀ (i : Nat) (x : MasterNode) (ideal : Nat), i < ms.length →
      sumExcess (ms.set i x) ideal + ((ms.getD i ⟨"", "", []⟩).Slots.length - ideal)
        = sumExcess ms ideal + (x.Slots.length - ideal) := by
  induction ms with
  | nil => intro i x ideal h; simp at h
  | cons a as ih =>
    intro i x ideal h
    cases i with
    | zero =>
      simp only [List.set_cons_zero, List.getD_cons_zero, sumExcess, List.map_cons,
        List.sum_cons]
      omega
    | succ i' =>
      have h' : i' < as.length := by simpa using h
      simp only [List.set_cons_succ, List.getD_cons_succ, sumExcess, List.map_cons,
        List.sum_cons]
      have := ih i' x ideal h'
      simp only [sumExcess] at this
      omega

/-- The pairing loop books every moved slot against the total excess:
the plan total plus the remaining excess is invariant. -/
theorem planLoopAux_total (ideal : Nat) (donors receivers : List Nat) :
    ∀ (fuel : Nat) (ms : List MasterNode) (dIdx rIdx : Nat) (plan : List RebalancePlan),
      planTotal (planLoopAux ideal donors receivers fuel ms dIdx rIdx plan).1
          + sumExcess (planLoopAux ideal donors receivers fuel ms dIdx rIdx plan).2 ideal
        = planTotal plan + sumExcess ms ideal := by
  intro fuel
  induction fuel with
  | zero => intro ms dIdx rIdx plan; rfl
  | succ f ih =>
    intro ms dIdx rIdx plan
    rw [planLoopAux]
    by_cases hg : dIdx < donors.length ∧ rIdx < receivers.length
    case neg =>
      rw [if_neg hg]
    case pos =>
      rw [if_pos hg]
      set d := donors.getD dIdx 0 with hd
      set r := receivers.getD rIdx 0 with hr
      set donor := ms.getD d ⟨"", "", []⟩ with hdonor
      set receiver := ms.getD r ⟨"", "", []⟩ with hrecv
      by_cases hmv : moveAmount ideal donor receiver ≤ 0
      · rw [if_pos hmv]
      · rw [if_neg hmv]
        obtain ⟨hde, hre, htr, hda, hra, hm1, hm2, hm0⟩ := stepFacts ideal donor receiver hmv
        rw [ih]
        have hpt : planTotal (plan ++ [⟨donor.ID, receiver.ID,
            transferOf ideal donor receiver, (transferOf ideal donor receiver).length⟩])
            = planTotal plan + (transferOf ideal donor receiver).length := by
          simp [planTotal]
        rw [hpt, htr]
        have hdlt : d < ms.length := by
          by_contra hc
          have hdon : donor = ⟨"", "", []⟩ := by
            rw [hdonor]
            exact List.getD_eq_default _ _ (by omega)
          rw [hdon] at hde
          simp at hde
        have hdr : d ≠ r := by
          intro hEq
          have hx : donor = receiver := by rw [hdonor, hrecv, hEq]
          rw [hx] at hde
          omega
        by_cases hrlt : r < ms.length
        · have h1 := sumExcess_set ms d (donorAfter ideal donor receiver) ideal hdlt
          have h2 := sumExcess_set (ms.set d (donorAfter ideal donor receiver)) r
            (receiverAfter ideal donor receiver) ideal
            (by simpa [List.length_set] using hrlt)
          have hgr : (ms.set d (donorAfter ideal donor receiver)).getD r ⟨"", "", []⟩
              = receiver := by
            rw [listGetDSet, if_neg (fun hc => hdr hc.1.symm), hrecv]
          rw [hgr] at h2
          rw [← hdonor] at h1
          rw [hda] at h1
          rw [hra] at h2
          omega
        · have hset : (ms.set d (donorAfter ideal donor receiver)).set r
              (receiverAfter ideal donor receiver)
              = ms.set d (donorAfter ideal donor receiver) :=
            List.set_eq_of_length_le (by simp [List.length_set]; omega)
          rw [hset]
          have h1 := sumExcess_set ms d (donorAfter ideal donor receiver) ideal hdlt
          rw [← hdonor] at h1
          rw [hda] at h1
          omega

/-- Unfolding `generateRebalancePlanAux` in the non-empty case. -/
theorem generateRebalancePlanAux_eq (masters : List MasterNode) (h : ¬masters.length = 0) :
    generateRebalancePlanAux masters
      = planLoopAux (16384 / masters.length)
          ((List.range (sortByCountDesc masters).length).filter
            (fun i => 16384 / masters.length
              < ((sortByCountDesc masters).getD i ⟨"", "", []⟩).Slots.length))
          ((List.range (sortByCountDesc masters).length).filter
            (fun i => ((sortByCountDesc masters).getD i ⟨"", "", []⟩).Slots.length
              < 16384 / masters.length))
          (((List.range (sortByCountDesc masters).length).filter
            (fun i => 16384 / masters.length
              < ((sortByCountDesc masters).getD i ⟨"", "", []⟩).Slots.length)).length
            + ((List.range (sortByCountDesc masters).length).filter
              (fun i => ((sortByCountDesc masters).getD i ⟨"", "", []⟩).Slots.length
                < 16384 / masters.length)).length + 1)
          (sortByCountDesc masters) 0 0 [] := by
  unfold generateRebalancePlanAux
  rw [if_neg h]

/-- Every paying step balances its donor or its receiver exactly, so one
of the two indices advances. -/
theorem stepAdvance (ideal : Nat) (donor receiver : MasterNode)
    (h : ¬moveAmount ideal donor receiver ≤ 0) :
    (donorAfter ideal donor receiver).Slots.length ≤ ideal
    ∨ ideal ≤ (receiverAfter ideal donor receiver).Slots.length := by
  obtain ⟨hde, hre, htr, hda, hra, hm1, hm2, hm0⟩ := stepFacts ideal donor receiver h
  by_cases hc : (ideal : Int) - (receiver.Slots.length : Int)
      < (donor.Slots.length : Int) - (ideal : Int)
  · right
    have hmv : moveAmount ideal donor receiver
        = (ideal : Int) - (receiver.Slots.length : Int) := by
      unfold moveAmount
      rw [if_pos hc]
    rw [hra]
    omega
  · left
    have hmv : moveAmount ideal donor receiver
        = (donor.Slots.length : Int) - (ideal : Int) := by
      unfold moveAmount
      rw [if_neg hc]
    rw [hda]
    omega

/-- The fuel bound on the pairing loop is slack: any two fuels above the
remaining donor/receiver budget give the same result, so the fuel
supplied by `generateRebalancePlanAux` never cuts the loop short. -/
theorem planLoopAux_fuel_sufficient (ideal : Nat) (donors receivers : List Nat) :
    ∀ (fuel₁ fuel₂ : Nat) (ms : List MasterNode) (dIdx rIdx : Nat)
      (plan : List RebalancePlan),
      (donors.length - dIdx) + (receivers.length - rIdx) < fuel₁ →
      (donors.length - dIdx) + (receivers.length - rIdx) < fuel₂ →
      planLoopAux ideal donors receivers fuel₁ ms dIdx rIdx plan
        = planLoopAux ideal donors receivers fuel₂ ms dIdx rIdx plan := by
  intro fuel₁
  induction fuel₁ with
  | zero => intro fuel₂ ms dIdx rIdx plan h1 _; omega
  | succ f ih =>
    intro fuel₂ ms dIdx rIdx plan h1 h2
    cases fuel₂ with
    | zero => omega
    | succ f₂ =>
      rw [planLoopAux]
      conv_rhs => rw [planLoopAux]
      by_cases hg : dIdx < donors.length ∧ rIdx < receivers.length
      · rw [if_pos hg, if_pos hg]
        set donor := ms.getD (donors.getD dIdx 0) ⟨"", "", []⟩ with hdonor
        set receiver := ms.getD (receivers.getD rIdx 0) ⟨"", "", []⟩ with hrecv
        by_cases hmv : moveAmount ideal donor receiver ≤ 0
        · rw [if_pos hmv, if_pos hmv]
        · rw [if_neg hmv, if_neg hmv]
          have hadv := stepAdvance ideal donor receiver hmv
          by_cases ha : (donorAfter ideal donor receiver).Slots.length ≤ ideal <;>
            by_cases hb : ideal ≤ (receiverAfter ideal donor receiver).Slots.length
          · rw [if_pos ha, if_pos hb]
            exact ih _ _ _ _ _ (by omega) (by omega)
          · rw [if_pos ha, if_neg hb]
            exact ih _ _ _ _ _ (by omega) (by omega)
          · rw [if_neg ha, if_pos hb]
            exact ih _ _ _ _ _ (by omega) (by omega)
          · exact absurd hadv (by tauto)
      · rw [if_neg hg, if_neg hg]

/-- Setting a position to its own value changes nothing. -/
theorem listSetSelf {α : Type} (l : List α) (i : Nat) (δ : α) (h : i < l.length) :
    l.set i (l.getD i δ) = l := by
  apply List.ext_getElem?
  intro n
  rw [List.getElem?_set]
  by_cases hin : i = n
  · subst hin
    rw [if_pos rfl, if_pos h, List.getD_eq_getElem?_getD, List.getElem?_eq_getElem h]
    rfl
  · rw [if_neg hin]

/-- In-range `getD` is plain indexing. -/
theorem listGetDLt {α : Type} (l : List α) (i : Nat) (δ : α) (h : i < l.length) :
    l.getD i δ = l[i] := by
  rw [List.getD_eq_getElem?_getD, List.getElem?_eq_getElem h]
  rfl

/-- The pairing loop only appends to the plan accumulator, and its final
master list does not depend on the accumulator. -/
theorem planLoopAux_plan_acc (ideal : Nat) (donors receivers : List Nat) :
    ∀ (fuel : Nat) (ms : List MasterNode) (dIdx rIdx : Nat) (plan : List RebalancePlan),
      (planLoopAux ideal donors receivers fuel ms dIdx rIdx plan).1
          = plan ++ (planLoopAux ideal donors receivers fuel ms dIdx rIdx []).1
        ∧ (planLoopAux ideal donors receivers fuel ms dIdx rIdx plan).2
          = (planLoopAux ideal donors receivers fuel ms dIdx rIdx []).2 := by
  intro fuel
  induction fuel with
  | zero => intro ms dIdx rIdx plan; exact ⟨by simp [planLoopAux], rfl⟩
  | succ f ih =>
    intro ms dIdx rIdx plan
    by_cases hg : dIdx < donors.length ∧ rIdx < receivers.length
    case neg =>
      have e : ∀ p : List RebalancePlan,
          planLoopAux ideal donors receivers (f + 1) ms dIdx rIdx p = (p, ms) := by
        intro p
        rw [planLoopAux, if_neg hg]
      rw [e plan, e []]
      exact ⟨by simp, rfl⟩
    case pos =>
      set donor := ms.getD (donors.getD dIdx 0) ⟨"", "", []⟩ with hdonor
      set receiver := ms.getD (receivers.getD rIdx 0) ⟨"", "", []⟩ with hrecv
      by_cases hmv : moveAmount ideal donor receiver ≤ 0
      · have e : ∀ p : List RebalancePlan,
            planLoopAux ideal donors receivers (f + 1) ms dIdx rIdx p = (p, ms) := by
          intro p
          rw [planLoopAux, if_pos hg, if_pos hmv]
        rw [e plan, e []]
        exact ⟨by simp, rfl⟩
      · have e : ∀ p : List RebalancePlan,
            planLoopAux ideal donors receivers (f + 1) ms dIdx rIdx p
              = planLoopAux ideal donors receivers f
                  ((ms.set (donors.getD dIdx 0) (donorAfter ideal donor receiver)).set
                    (receivers.getD rIdx 0) (receiverAfter ideal donor receiver))
                  (if (donorAfter ideal donor receiver).Slots.length ≤ ideal then dIdx + 1
                    else dIdx)
                  (if ideal ≤ (receiverAfter ideal donor receiver).Slots.length then rIdx + 1
                    else rIdx)
                  (p ++ [⟨donor.ID, receiver.ID, transferOf ideal donor receiver,
                    (transferOf ideal donor receiver).length⟩]) := by
          intro p
          rw [planLoopAux, if_pos hg, if_neg hmv]
        rw [e plan, e []]
        obtain ⟨a1, a2⟩ := ih _ _ _
          (plan ++ [⟨donor.ID, receiver.ID, transferOf ideal donor receiver,
            (transferOf ideal donor receiver).length⟩])
        obtain ⟨b1, b2⟩ := ih _ _ _
          ([] ++ [⟨donor.ID, receiver.ID, transferOf ideal donor receiver,
            (transferOf ideal donor receiver).length⟩])
        refine ⟨?_, a2.trans b2.symm⟩
        rw [a1, b1]
        simp

/-- Distinct ids index distinct positions. -/
theorem nodupIdInj (ms : List MasterNode)
    (hnd : (ms.map (fun mn => mn.ID)).Nodup) :
    ∀ (i j : Nat) (hi : i < ms.length) (hj : j < ms.length),
      ms[i].ID = ms[j].ID ↔ i = j := by
  intro i j hi hj
  have hi2 : i < (ms.map (fun mn => mn.ID)).length := by simpa using hi
  have hj2 : j < (ms.map (fun mn => mn.ID)).length := by simpa using hj
  have h1 : (ms.map (fun mn => mn.ID))[i] = ms[i].ID := List.getElem_map _
  have h2 : (ms.map (fun mn => mn.ID))[j] = ms[j].ID := List.getElem_map _
  rw [← h1, ← h2]
  exact hnd.getElem_inj_iff

/-- One plan item, applied by id to a list with unique ids, is exactly
the loop's double position update. -/
theorem applyPlanItem_step (ideal : Nat) (ms : List MasterNode) (d r : Nat)
    (hnd : (ms.map (fun mn => mn.ID)).Nodup)
    (hd : d < ms.length) (hr : r < ms.length) (hdr : d ≠ r) :
    applyPlanItem ms
        ⟨(ms.getD d ⟨"", "", []⟩).ID, (ms.getD r ⟨"", "", []⟩).ID,
          transferOf ideal (ms.getD d ⟨"", "", []⟩) (ms.getD r ⟨"", "", []⟩),
          (transferOf ideal (ms.getD d ⟨"", "", []⟩) (ms.getD r ⟨"", "", []⟩)).length⟩
      = (ms.set d (donorAfter ideal (ms.getD d ⟨"", "", []⟩) (ms.getD r ⟨"", "", []⟩))).set r
          (receiverAfter ideal (ms.getD d ⟨"", "", []⟩) (ms.getD r ⟨"", "", []⟩)) := by
  have hgd : ms.getD d ⟨"", "", []⟩ = ms[d] := listGetDLt ms d _ hd
  have hgr : ms.getD r ⟨"", "", []⟩ = ms[r] := listGetDLt ms r _ hr
  apply List.ext_getElem?
  intro n
  rw [List.getElem?_set, List.getElem?_set]
  unfold applyPlanItem
  rw [List.getElem?_map]
  by_cases hn : n < ms.length
  · rw [List.getElem?_eq_getElem hn]
    by_cases hnr : r = n
    · subst hnr
      rw [if_pos rfl, if_pos (by simpa [List.length_set] using hr)]
      have hne : ¬ms[r].ID = (ms.getD d ⟨"", "", []⟩).ID := by
        rw [hgd]
        intro hc
        exact hdr ((nodupIdInj ms hnd r d hr hd).mp hc).symm
      simp only [Option.map_some', Option.some.injEq]
      rw [if_neg hne, if_pos (by rw [hgr])]
      rw [receiverAfter, hgr]
    · rw [if_neg hnr]
      by_cases hnd2 : d = n
      · subst hnd2
        rw [if_pos rfl, if_pos hd]
        simp only [Option.map_some', Option.some.injEq]
        rw [if_pos (by rw [hgd])]
        rw [donorAfter, hgd]
      · rw [if_neg hnd2]
        have hne1 : ¬ms[n].ID = (ms.getD d ⟨"", "", []⟩).ID := by
          rw [hgd]
          intro hc
          exact hnd2 ((nodupIdInj ms hnd n d hn hd).mp hc).symm
        have hne2 : ¬ms[n].ID = (ms.getD r ⟨"", "", []⟩).ID := by
          rw [hgr]
          intro hc
          exact hnr ((nodupIdInj ms hnd n r hn hr).mp hc).symm
        simp only [Option.map_some', Option.some.injEq]
        rw [if_neg hne1, if_neg hne2]
  · have hrn : ¬r = n := by omega
    have hdn : ¬d = n := by omega
    have e1 : ms[n]? = none := List.getElem?_eq_none (by omega)
    rw [if_neg hrn, if_neg hdn, e1]
    rfl

/-- The ids of the master list are untouched by one loop update. -/
theorem stepPreservesIds (ideal : Nat) (ms : List MasterNode) (d r : Nat)
    (hd : d < ms.length) (hr : r < ms.length) :
    ((ms.set d (donorAfter ideal (ms.getD d ⟨"", "", []⟩) (ms.getD r ⟨"", "", []⟩))).set r
        (receiverAfter ideal (ms.getD d ⟨"", "", []⟩) (ms.getD r ⟨"", "", []⟩))).map
      (fun mn => mn.ID) = ms.map (fun mn => mn.ID) := by
  rw [List.map_set, List.map_set]
  have h1 : (donorAfter ideal (ms.getD d ⟨"", "", []⟩) (ms.getD r ⟨"", "", []⟩)).ID
      = (ms.map (fun mn => mn.ID)).getD d "" := by
    rw [donorAfter, listGetDLt ms d _ hd,
      listGetDLt (ms.map (fun mn => mn.ID)) d "" (by simpa using hd), List.getElem_map]
  have h2 : (receiverAfter ideal (ms.getD d ⟨"", "", []⟩) (ms.getD r ⟨"", "", []⟩)).ID
      = (ms.map (fun mn => mn.ID)).getD r "" := by
    rw [receiverAfter, listGetDLt ms r _ hr,
      listGetDLt (ms.map (fun mn => mn.ID)) r "" (by simpa using hr), List.getElem_map]
  rw [h1]
  rw [listSetSelf (ms.map (fun mn => mn.ID)) d "" (by simpa using hd)]
  rw [h2]
  rw [listSetSelf (ms.map (fun mn => mn.ID)) r "" (by simpa using hr)]

/-- With unique ids and in-range donor/receiver indices, the loop's final
master list is its own plan applied by id. -/
theorem planLoopAux_apply (ideal : Nat) (donors receivers : List Nat) :
    ∀ (fuel : Nat) (ms : List MasterNode) (dIdx rIdx : Nat),
      (ms.map (fun mn => mn.ID)).Nodup →
      (∀ i ∈ donors, i < ms.length) →
      (∀ i ∈ receivers, i < ms.length) →
      (planLoopAux ideal donors receivers fuel ms dIdx rIdx []).2
        = applyPlan ms (planLoopAux ideal donors receivers fuel ms dIdx rIdx []).1 := by
  intro fuel
  induction fuel with
  | zero => intro ms dIdx rIdx _ _ _; rfl
  | succ f ih =>
    intro ms dIdx rIdx hnd hvd hvr
    by_cases hg : dIdx < donors.length ∧ rIdx < receivers.length
    case neg =>
      rw [planLoopAux, if_neg hg]
      rfl
    case pos =>
      set donor := ms.getD (donors.getD dIdx 0) ⟨"", "", []⟩ with hdonor
      set receiver := ms.getD (receivers.getD rIdx 0) ⟨"", "", []⟩ with hrecv
      by_cases hmv : moveAmount ideal donor receiver ≤ 0
      · rw [planLoopAux, if_pos hg, if_pos hmv]
        rfl
      · have hdin : donors.getD dIdx 0 ∈ donors := by
          rw [listGetDLt donors dIdx 0 hg.1]
          exact List.getElem_mem _
        have hrin : receivers.getD rIdx 0 ∈ receivers := by
          rw [listGetDLt receivers rIdx 0 hg.2]
          exact List.getElem_mem _
        have hd : donors.getD dIdx 0 < ms.length := hvd _ hdin
        have hr : receivers.getD rIdx 0 < ms.length := hvr _ hrin
        obtain ⟨hde, hre, _, _, _, _, _, _⟩ := stepFacts ideal donor receiver hmv
        have hdr : donors.getD dIdx 0 ≠ receivers.getD rIdx 0 := by
          intro hEq
          have hx : donor = receiver := by rw [hdonor, hrecv, hEq]
          rw [hx] at hde
          omega
        have e : planLoopAux ideal donors receivers (f + 1) ms dIdx rIdx []
            = planLoopAux ideal donors receivers f
                ((ms.set (donors.getD dIdx 0) (donorAfter ideal donor receiver)).set
                  (receivers.getD rIdx 0) (receiverAfter ideal donor receiver))
                (if (donorAfter ideal donor receiver).Slots.length ≤ ideal then dIdx + 1
                  else dIdx)
                (if ideal ≤ (receiverAfter ideal donor receiver).Slots.length then rIdx + 1
                  else rIdx)
                ([] ++ [⟨donor.ID, receiver.ID, transferOf ideal donor receiver,
                  (transferOf ideal donor receiver).length⟩]) := by
          rw [planLoopAux, if_pos hg, if_neg hmv]
        rw [e]
        obtain ⟨a1, a2⟩ := planLoopAux_plan_acc ideal donors receivers f _ _ _
          ([] ++ [⟨donor.ID, receiver.ID, transferOf ideal donor receiver,
            (transferOf ideal donor receiver).length⟩])
        rw [a1, a2]
        have hids := stepPreservesIds ideal ms (donors.getD dIdx 0) (receivers.getD rIdx 0)
          hd hr
        have hlen : ((ms.set (donors.getD dIdx 0) (donorAfter ideal donor receiver)).set
            (receivers.getD rIdx 0) (receiverAfter ideal donor receiver)).length
            = ms.length := by
          simp [List.length_set]
        have hIH := ih ((ms.set (donors.getD dIdx 0) (donorAfter ideal donor receiver)).set
            (receivers.getD rIdx 0) (receiverAfter ideal donor receiver))
          (if (donorAfter ideal donor receiver).Slots.length ≤ ideal then dIdx + 1 else dIdx)
          (if ideal ≤ (receiverAfter ideal donor receiver).Slots.length then rIdx + 1 else rIdx)
          (by rw [← hdonor, ← hrecv] at hids; rw [hids]; exact hnd)
          (fun i hi => by rw [hlen]; exact hvd i hi)
          (fun i hi => by rw [hlen]; exact hvr i hi)
        rw [hIH]
        have hstep := applyPlanItem_step ideal ms (donors.getD dIdx 0)
          (receivers.getD rIdx 0) hnd hd hr hdr
        rw [← hdonor, ← hrecv] at hstep
        simp only [List.nil_append, List.singleton_append, applyPlan, List.foldl_cons]
        rw [hstep]

/-- C5: the plan produced by `generateRebalancePlan` never increases the
maximum absolute deviation from the ideal count `⌊16384/n⌋`, moves at most
`Σ max(0, cᵢ − ideal)` slots in total, and — whenever node ids are unique —
applying the plan to the (count-sorted) distribution yields exactly the
loop's final master list, which is the plan's intended redistribution. -/
theorem C5_rebalance_plan (masters : List MasterNode) :
    maxDev (generateRebalancePlanAux masters).2 (16384 / masters.length)
        ≤ maxDev masters (16384 / masters.length)
    ∧ planTotal (generateRebalancePlan masters)
        ≤ sumExcess masters (16384 / masters.length)
    ∧ ((masters.map (fun mn => mn.ID)).Nodup →
        applyPlan (sortByCountDesc masters) (generateRebalancePlan masters)
          = (generateRebalancePlanAux masters).2) := by
  by_cases hz : masters.length = 0
  · have hm : masters = [] := List.length_eq_zero.mp hz
    subst hm
    exact ⟨le_refl _, le_refl _, fun _ => rfl⟩
  · have hperm : (sortByCountDesc masters).Perm masters := sortByCountDesc_perm masters
    rw [generateRebalancePlan, generateRebalancePlanAux_eq masters hz]
    refine ⟨?_, ?_, ?_⟩
    · refine le_trans ?_ (le_of_eq (maxDev_perm hperm (16384 / masters.length)))
      refine maxDev_le_pointwise _ _ _ ?_ ?_
      · exact planLoopAux_length _ _ _ _ _ _ _ _
      · intro j
        exact planLoopAux_dev _ _ _ j _ _ _ _ _
    · have htot := planLoopAux_total (16384 / masters.length)
        ((List.range (sortByCountDesc masters).length).filter
          (fun i => 16384 / masters.length
            < ((sortByCountDesc masters).getD i ⟨"", "", []⟩).Slots.length))
        ((List.range (sortByCountDesc masters).length).filter
          (fun i => ((sortByCountDesc masters).getD i ⟨"", "", []⟩).Slots.length
            < 16384 / masters.length))
        (((List.range (sortByCountDesc masters).length).filter
          (fun i => 16384 / masters.length
            < ((sortByCountDesc masters).getD i ⟨"", "", []⟩).Slots.length)).length
          + ((List.range (sortByCountDesc masters).length).filter
            (fun i => ((sortByCountDesc masters).getD i ⟨"", "", []⟩).Slots.length
              < 16384 / masters.length)).length + 1)
        (sortByCountDesc masters) 0 0 []
      rw [sumExcess_perm hperm] at htot
      have h0 : planTotal ([] : List RebalancePlan) = 0 := rfl
      rw [h0, Nat.zero_add] at htot
      omega
    · intro hnd
      have hndp : ((sortByCountDesc masters).map (fun mn => mn.ID)).Nodup :=
        ((hperm.map (fun mn => mn.ID)).nodup_iff).mpr hnd
      refine (planLoopAux_apply (16384 / masters.length) _ _ _
        (sortByCountDesc masters) 0 0 hndp ?_ ?_).symm
      · intro i hi
        exact List.mem_range.mp (List.mem_filter.mp hi).1
      · intro i hi
        exact List.mem_range.mp (List.mem_filter.mp hi).1

/-- `C5_rebalance_plan` holds at a concrete two-master cluster with
distinct ids. -/
theorem C5_witness :
    (([⟨"a", "x", [0, 1, 2, 3]⟩, ⟨"b", "y", []⟩] : List MasterNode).map
        (fun mn => mn.ID)).Nodup
    ∧ applyPlan (sortByCountDesc [⟨"a", "x", [0, 1, 2, 3]⟩, ⟨"b", "y", []⟩])
        (generateRebalancePlan [⟨"a", "x", [0, 1, 2, 3]⟩, ⟨"b", "y", []⟩])
      = (generateRebalancePlanAux [⟨"a", "x", [0, 1, 2, 3]⟩, ⟨"b", "y", []⟩]).2 :=
  ⟨by decide,
    (C5_rebalance_plan [⟨"a", "x", [0, 1, 2, 3]⟩, ⟨"b", "y", []⟩]).2.2 (by decide)⟩

end Redisctl
